import Mathlib

/-!
Verification model of the `sourcier-core` Rust crate.

The development shallowly embeds the three coupled components of the crate:

* `fid.rs` — the bit-packed position codec (`AbsolutePosition`, `RelativePosition`)
  together with the per-integer-width file-ID policies produced by the
  `impl_file_id!` macro.  Machine integers are modelled as `Nat` with an explicit
  `% 2 ^ 64` where a `u64` is produced.
* `clo.rs` — the compact line-offset index (`CompactLineOffsets`).
* `sfm.rs` — the file registry (`SourceFilesMap`) with `add_file`, `finalize`,
  the lookup accessors and the feature-gated `view` span resolver.

Byte strings (`Vec<u8>` / `&[u8]`) are modelled as `List Nat`; fallible Rust code
returning `Result` is modelled with `Except String`.  The runtime-feedback
feature only tunes allocation sizes and never affects observable results, so the
two heuristic fields are carried but unused, exactly as they are semantically in
the source.
-/

/-- Lexicographic comparison of UTF-8 code-point sequences.  This is the order
`Ord for String` uses in Rust (bytewise UTF-8 comparison coincides with
code-point-wise comparison). -/
def charListLt : List Char → List Char → Bool
  | [], [] => false
  | [], _ :: _ => true
  | _ :: _, [] => false
  | a :: as, b :: bs =>
    if a.toNat < b.toNat then true
    else if b.toNat < a.toNat then false
    else charListLt as bs

/-- Rust's `String` ordering (`a.path.cmp(&b.path)` is `Less`), modelled on the
character data of the Lean string. -/
def pathLtB (a b : String) : Bool := charListLt a.data b.data

/-- Model of `FileEntry { path: String, content: Vec<u8> }` from `sfm.rs`. -/
structure FileEntry where
  path : String
  content : List Nat
deriving DecidableEq

/-- The comparator used by `finalize`:
`a.path.cmp(&b.path).then_with(|| a.content.len().cmp(&b.content.len()))` is not
`Greater`, i.e. sort by path first and break ties by content size. -/
def entryLe (a b : FileEntry) : Prop :=
  pathLtB a.path b.path = true ∨
    (a.path = b.path ∧ a.content.length ≤ b.content.length)

instance : DecidableRel entryLe := fun a b => by
  unfold entryLe; infer_instance

/-- The associated constants of the `FileId` trait in `fid.rs`. -/
structure FileIdPolicy where
  MAX_FILES : Nat
  MAX_ID : Nat
  FILE_ID_BITS : Nat
  FILE_ID_SHIFT : Nat
  START_LINE_SHIFT : Nat
  START_COL_SHIFT : Nat
  END_LINE_SHIFT : Nat
  END_COL_SHIFT : Nat
  FILE_ID_MASK : Nat
  LINE_MASK : Nat
  COL_MASK : Nat

/-- Body of the `impl_file_id!($t, $bits, $file_shift)` macro in `fid.rs`;
`tmax` stands for `<$t>::MAX`. -/
def impl_file_id (tmax bits fileShift : Nat) : FileIdPolicy where
  MAX_FILES := tmax
  MAX_ID := tmax + 1
  FILE_ID_BITS := bits
  FILE_ID_SHIFT := fileShift
  START_LINE_SHIFT := fileShift - 16
  START_COL_SHIFT := fileShift - 24
  END_LINE_SHIFT := fileShift - 40
  END_COL_SHIFT := fileShift - 48
  FILE_ID_MASK := ((1 <<< bits) - 1) <<< fileShift
  LINE_MASK := 0xFFFF
  COL_MASK := 0xFF

/-- The instantiation `impl_file_id!(u8, 8, 56)`. -/
def u8Policy : FileIdPolicy := impl_file_id 255 8 56

/-- The instantiation `impl_file_id!(u16, 16, 48)`. -/
def u16Policy : FileIdPolicy := impl_file_id 65535 16 48

/-- Model of `AbsolutePosition::new` from `fid.rs`: shift every field to its policy slot
and OR the results into one `u64` word. -/
def AbsolutePosition.new (P : FileIdPolicy)
    (file_id start_line start_col end_line end_col : Nat) : Nat :=
  ((file_id <<< P.FILE_ID_SHIFT) |||
   (start_line <<< P.START_LINE_SHIFT) |||
   (start_col <<< P.START_COL_SHIFT) |||
   (end_line <<< P.END_LINE_SHIFT) |||
   (end_col <<< P.END_COL_SHIFT)) % 2 ^ 64

/-- Model of `AbsolutePosition::file_id`: mask, shift, then `try_into` the ID type.
`none` models the `panic!("Invalid file ID encoding")` branch taken when the
masked bits exceed the ID type's range (`tmax = MAX_FILES`). -/
def AbsolutePosition.file_id (P : FileIdPolicy) (w : Nat) : Option Nat :=
  let idValue := (w &&& P.FILE_ID_MASK) >>> P.FILE_ID_SHIFT
  if idValue ≤ P.MAX_FILES then some idValue else none

/-- Accessor `source_file_id` for `AbsolutePosition` — always `Some`, truncated `as u16`. -/
def AbsolutePosition.source_file_id (P : FileIdPolicy) (w : Nat) : Option Nat :=
  some (((w &&& P.FILE_ID_MASK) >>> P.FILE_ID_SHIFT) % 2 ^ 16)

/-- Accessor `start_line` of `AbsolutePosition`. -/
def AbsolutePosition.start_line (P : FileIdPolicy) (w : Nat) : Nat :=
  (w >>> P.START_LINE_SHIFT) &&& P.LINE_MASK

/-- Accessor `start_column` of `AbsolutePosition`. -/
def AbsolutePosition.start_column (P : FileIdPolicy) (w : Nat) : Nat :=
  (w >>> P.START_COL_SHIFT) &&& P.COL_MASK

/-- Accessor `end_line` of `AbsolutePosition`. -/
def AbsolutePosition.end_line (P : FileIdPolicy) (w : Nat) : Nat :=
  (w >>> P.END_LINE_SHIFT) &&& P.LINE_MASK

/-- Accessor `end_column` of `AbsolutePosition`. -/
def AbsolutePosition.end_column (P : FileIdPolicy) (w : Nat) : Nat :=
  (w >>> P.END_COL_SHIFT) &&& P.COL_MASK

/-- Model of `RelativePosition::new` from `fid.rs` (fixed shifts 32 / 24 / 8 / 0). -/
def RelativePosition.new (start_line start_col end_line end_col : Nat) : Nat :=
  ((start_line <<< 32) ||| (start_col <<< 24) ||| (end_line <<< 8) ||| end_col) % 2 ^ 64

/-- Accessor `source_file_id` for `RelativePosition` — always `None`. -/
def RelativePosition.source_file_id (_w : Nat) : Option Nat := none

/-- Accessor `start_line` of `RelativePosition`. -/
def RelativePosition.start_line (w : Nat) : Nat := (w >>> 32) &&& 0xFFFF

/-- Accessor `start_column` of `RelativePosition`. -/
def RelativePosition.start_column (w : Nat) : Nat := (w >>> 24) &&& 0xFF

/-- Accessor `end_line` of `RelativePosition`. -/
def RelativePosition.end_line (w : Nat) : Nat := (w >>> 8) &&& 0xFFFF

/-- Accessor `end_column` of `RelativePosition`. -/
def RelativePosition.end_column (w : Nat) : Nat := w &&& 0xFF

/-- Model of `CompactLineOffsets` from `clo.rs`. -/
structure CompactLineOffsets where
  offsets : List Nat
  content_length : Nat
deriving DecidableEq

/-- The `memchr` scan of `CompactLineOffsets::compute`: positions one past each
newline byte (`b'\n'` = 10), scanning `content` whose first listed byte sits at
absolute position `pos`. -/
def newlineOffsets : List Nat → Nat → List Nat
  | [], _ => []
  | b :: rest, pos =>
    if b = 10 then (pos + 1) :: newlineOffsets rest (pos + 1)
    else newlineOffsets rest (pos + 1)

/-- Model of `CompactLineOffsets::compute`: offset table seeded with `0`, then one entry
per newline, plus the total content length. -/
def CompactLineOffsets.compute (content : List Nat) : CompactLineOffsets where
  offsets := 0 :: newlineOffsets content 0
  content_length := content.length

/-- Model of `CompactLineOffsets::get_line_range` (1-indexed).  The in-bounds list
indexing `self.offsets[line - 1]` / `self.offsets[line]` of the source is
rendered with `getD`; both accesses are guarded in range. -/
def CompactLineOffsets.get_line_range (clo : CompactLineOffsets) (line : Nat) :
    Option (Nat × Nat) :=
  if line = 0 ∨ line > clo.offsets.length then none
  else
    some (clo.offsets.getD (line - 1) 0,
      if line < clo.offsets.length then clo.offsets.getD line 0 - 1
      else clo.content_length)

/-- Model of `SourceFilesMap<Id>` from `sfm.rs`.  The `HashMap`s are modelled as
association lists (all keys inserted are distinct); the two heuristic fields
only size preallocations in the source and are observably inert. -/
structure SourceFilesMap where
  files : List FileEntry
  path_to_id : List (String × Nat)
  line_offsets : List (Nat × CompactLineOffsets)
  avg_file_size : Nat
  expected_files : Nat
deriving DecidableEq

/-- Model of `SourceFilesMap::new` with its default heuristics (100 files @ 2KB). -/
def SourceFilesMap.new : SourceFilesMap where
  files := []
  path_to_id := []
  line_offsets := []
  avg_file_size := 2048
  expected_files := 100

/-- Model of `SourceFilesMap::add_file`: push only while strictly below
`Id::MAX_FILES`; silently drop otherwise. -/
def SourceFilesMap.add_file (P : FileIdPolicy) (m : SourceFilesMap)
    (path : String) (content : List Nat) : SourceFilesMap :=
  if m.files.length < P.MAX_FILES then
    { m with files := m.files ++ [{ path := path, content := content }] }
  else m

/-- Tail worker of `Vec::dedup_by(|a, b| a.path == b.path)`: drop every element
whose path equals the most recently retained entry `kept`. -/
def dedupFrom (kept : FileEntry) : List FileEntry → List FileEntry
  | [] => []
  | b :: rest =>
    if kept.path = b.path then dedupFrom kept rest
    else b :: dedupFrom b rest

/-- Model of `Vec::dedup_by(|a, b| a.path == b.path)`: keep the first entry of every run
of path-equal elements. -/
def dedupByPath : List FileEntry → List FileEntry
  | [] => []
  | a :: rest => a :: dedupFrom a rest

/-- The first `finalize` loop: enumerate the files and insert
`(path, (idx + 1) as Id)` into the path map, failing like
`u64::try_into::<Id>` when `idx + 1` exceeds the ID type's maximum
(`tmax = MAX_FILES`). -/
def buildPathToId (P : FileIdPolicy) : List FileEntry → Nat →
    Except String (List (String × Nat))
  | [], _ => Except.ok []
  | e :: rest, idx =>
    if idx + 1 > P.MAX_FILES then Except.error "ID conversion failed"
    else
      match buildPathToId P rest (idx + 1) with
      | Except.error msg => Except.error msg
      | Except.ok tl => Except.ok ((e.path, idx + 1) :: tl)

/-- The second `finalize` loop: replace each entry's content with the window
`consolidated[offset..offset + len]` of the consolidated buffer. -/
def restoreFromBuffer (buf : List Nat) (offset : Nat) :
    List FileEntry → List FileEntry
  | [] => []
  | e :: rest =>
    { e with content := (buf.drop offset).take e.content.length } ::
      restoreFromBuffer buf (offset + e.content.length) rest

/-- The feature-gated `view` loop of `finalize`: line offsets per file, keyed by
`Id::try_from(idx + 1)` with the same failure condition as the ID map. -/
def buildLineOffsets (P : FileIdPolicy) : List FileEntry → Nat →
    Except String (List (Nat × CompactLineOffsets))
  | [], _ => Except.ok []
  | e :: rest, idx =>
    if idx + 1 > P.MAX_FILES then Except.error "ID conversion failed"
    else
      match buildLineOffsets P rest (idx + 1) with
      | Except.error msg => Except.error msg
      | Except.ok tl => Except.ok ((idx + 1, CompactLineOffsets.compute e.content) :: tl)

/-- Model of `SourceFilesMap::finalize`: sort by `(path, content length)` (modelling
`sort_unstable_by` with a sorted permutation), deduplicate adjacent path runs
keeping the first entry, check the capacity bound, build the ID map, consolidate
the contents into one buffer and re-slice every entry out of it, then compute
per-file line offsets. -/
def SourceFilesMap.finalize (P : FileIdPolicy) (m : SourceFilesMap) :
    Except String SourceFilesMap :=
  let sorted := List.insertionSort entryLe m.files
  let deduped := dedupByPath sorted
  if deduped.length > P.MAX_FILES then
    Except.error "Exceeded maximum files for ID type"
  else
    match buildPathToId P deduped 0 with
    | Except.error msg => Except.error msg
    | Except.ok p2i =>
      let consolidated := (deduped.map FileEntry.content).flatten
      let files := restoreFromBuffer consolidated 0 deduped
      match buildLineOffsets P files 0 with
      | Except.error msg => Except.error msg
      | Except.ok lo =>
        Except.ok { m with files := files, path_to_id := p2i, line_offsets := lo }

/-- The wrapping computation `(raw_id - 1) as usize` performed on a `u64` by
`get_content` / `get_path` (release-mode two's-complement semantics: for
`id = 0` it wraps to `2 ^ 64 - 1`). -/
def u64_sub_one (id : Nat) : Nat := (id + (2 ^ 64 - 1)) % 2 ^ 64

/-- Model of `SourceFilesMap::get_content`. -/
def SourceFilesMap.get_content (m : SourceFilesMap) (id : Nat) : Option (List Nat) :=
  (m.files.get? (u64_sub_one id)).map FileEntry.content

/-- Model of `SourceFilesMap::get_id`. -/
def SourceFilesMap.get_id (m : SourceFilesMap) (path : String) : Option Nat :=
  m.path_to_id.lookup path

/-- Model of `SourceFilesMap::get_path`. -/
def SourceFilesMap.get_path (m : SourceFilesMap) (id : Nat) : Option String :=
  (m.files.get? (u64_sub_one id)).map FileEntry.path

/-- Model of `SourceFilesMap::len`. -/
def SourceFilesMap.len (m : SourceFilesMap) : Nat := m.files.length

/-- Model of `SourceFilesMap::is_empty`. -/
def SourceFilesMap.is_empty (m : SourceFilesMap) : Bool := m.files.isEmpty

/-- Model of `SourceFilesMap::view` from `sfm.rs`, taking the four accessor values of
the position argument (the source reads them through the
`SourceFilePosition` trait before any other step). -/
def SourceFilesMap.view (m : SourceFilesMap) (id : Nat)
    (start_line start_col end_line end_col : Nat) : Option (List Nat) :=
  match m.get_content id with
  | none => none
  | some content =>
    match m.line_offsets.lookup id with
    | none => none
    | some line_offsets =>
      if start_line = 0 ∨ end_line = 0 ∨ start_line > end_line then none
      else
        match line_offsets.get_line_range start_line,
              line_offsets.get_line_range end_line with
        | some start_range, some end_range =>
          let start_byte := start_range.1 + (start_col - 1)
          let end_byte := end_range.1 + end_col
          if start_byte ≥ content.length ∨ end_byte > content.length ∨
              start_byte > end_byte then none
          else some ((content.drop start_byte).take (end_byte - start_byte))
        | _, _ => none

/-- Register a whole list of `(path, content)` pairs with `add_file`. -/
def addAll (P : FileIdPolicy) (pairs : List (String × List Nat))
    (m : SourceFilesMap) : SourceFilesMap :=
  pairs.foldl (fun acc pc => acc.add_file P pc.1 pc.2) m

/-- Entries corresponding to a list of `(path, content)` pairs. -/
def entriesOf (pairs : List (String × List Nat)) : List FileEntry :=
  pairs.map fun pc => { path := pc.1, content := pc.2 }

/-- Discriminator for `Result::is_ok`. -/
def exceptOk {ε α : Type} : Except ε α → Bool
  | Except.ok _ => true
  | Except.error _ => false

/-- Specification value of `buildPathToId`: the path of the entry at offset `i`
is mapped to ID `k + i + 1`. -/
def pairsOf : List FileEntry → Nat → List (String × Nat)
  | [], _ => []
  | e :: rest, k => (e.path, k + 1) :: pairsOf rest (k + 1)

/-- Strict path order on entries, used for uniqueness of the sorted order. -/
def entryPathLt (a b : FileEntry) : Prop := pathLtB a.path b.path = true

/-- Specification value of `buildLineOffsets`: the entry at offset `i` gets key
`k + i + 1` and the line index of its content. -/
def cloListOf : List FileEntry → Nat → List (Nat × CompactLineOffsets)
  | [], _ => []
  | e :: rest, k => (k + 1, CompactLineOffsets.compute e.content) :: cloListOf rest (k + 1)

/-- Boolean check that a list of paths is strictly ascending in the path
order (hence duplicate-free). -/
def ascChain : List String → Bool
  | [] => true
  | [_] => true
  | a :: b :: rest => pathLtB a b && ascChain (b :: rest)

/-- Concrete byte content `b"Line1\\nLine2\\nLine3"` from the spec's line-index example. -/
def lineContent : List Nat := [76, 105, 110, 101, 49, 10, 76, 105, 110, 101, 50, 10, 76, 105, 110, 101, 51]

/-- Concrete byte content `b"First\\nSecond\\nThird"` from the spec's view example. -/
def exContent : List Nat := [70, 105, 114, 115, 116, 10, 83, 101, 99, 111, 110, 100, 10, 84, 104, 105, 114, 100]

/-- The encoded Relative Position `(1, 1, 3, 5)` of the view example. -/
def relEx : Nat := RelativePosition.new 1 1 3 5

/-- The finalized single-file registry of the view example. -/
def exRegistry : SourceFilesMap :=
  match (addAll u8Policy [("multiline.txt", exContent)] SourceFilesMap.new).finalize u8Policy with
  | Except.ok m => m
  | Except.error _ => SourceFilesMap.new

/-- A one-character path per index, ascending in the path order. -/
def cPath (i : Nat) : String := String.mk [Char.ofNat (48 + i)]

/-- Paths, 256 distinct ones, with empty contents, for the capacity scenario. -/
def pairs256 : List (String × List Nat) := (List.range 256).map fun i => (cPath i, [])

/-- Paths, 255 distinct ones, with empty contents, for the capacity scenario. -/
def pairs255 : List (String × List Nat) := (List.range 255).map fun i => (cPath i, [])

/-- Registry registering `dup.rs` twice: longer content first. -/
def regDup1 : SourceFilesMap :=
  match (addAll u8Policy [("dup.rs", [1, 2, 3]), ("dup.rs", [9])]
      SourceFilesMap.new).finalize u8Policy with
  | Except.ok m => m
  | Except.error _ => SourceFilesMap.new

/-- Registry registering `dup.rs` twice: shorter content first. -/
def regDup2 : SourceFilesMap :=
  match (addAll u8Policy [("dup.rs", [9]), ("dup.rs", [1, 2, 3])]
      SourceFilesMap.new).finalize u8Policy with
  | Except.ok m => m
  | Except.error _ => SourceFilesMap.new

/-- Registry registering `b.rs` then `a.rs` (insertion order reversed from sorted). -/
def regBA : SourceFilesMap :=
  match (addAll u8Policy [("b.rs", [1]), ("a.rs", [2])] SourceFilesMap.new).finalize u8Policy with
  | Except.ok m => m
  | Except.error _ => SourceFilesMap.new

/-- Registry registering `a.rs` then `b.rs` (insertion order equal to sorted). -/
def regAB : SourceFilesMap :=
  match (addAll u8Policy [("a.rs", [2]), ("b.rs", [1])] SourceFilesMap.new).finalize u8Policy with
  | Except.ok m => m
  | Except.error _ => SourceFilesMap.new

theorem charListLt_irrefl : ∀ l : List Char, charListLt l l = false
  | [] => rfl
  | a :: as => by
    simp only [charListLt, Nat.lt_irrefl, if_false]
    exact charListLt_irrefl as

theorem charListLt_trans : ∀ l₁ l₂ l₃ : List Char,
    charListLt l₁ l₂ = true → charListLt l₂ l₃ = true → charListLt l₁ l₃ = true
  | [], [], _, h₁, _ => by simp [charListLt] at h₁
  | [], _ :: _, [], _, h₂ => by simp [charListLt] at h₂
  | [], _ :: _, _ :: _, _, _ => by simp [charListLt]
  | _ :: _, [], _, h₁, _ => by simp [charListLt] at h₁
  | _ :: _, _ :: _, [], _, h₂ => by simp [charListLt] at h₂
  | a :: as, b :: bs, c :: cs, h₁, h₂ => by
    simp only [charListLt] at h₁ h₂ ⊢
    by_cases hab : a.toNat < b.toNat
    · by_cases hbc : b.toNat < c.toNat
      · rw [if_pos (Nat.lt_trans hab hbc)]
      · by_cases hcb : c.toNat < b.toNat
        · rw [if_neg hbc, if_pos hcb] at h₂
          simp at h₂
        · rw [if_pos (show a.toNat < c.toNat by omega)]
    · by_cases hba : b.toNat < a.toNat
      · rw [if_neg hab, if_pos hba] at h₁
        simp at h₁
      · by_cases hbc : b.toNat < c.toNat
        · rw [if_pos (show a.toNat < c.toNat by omega)]
        · by_cases hcb : c.toNat < b.toNat
          · rw [if_neg hbc, if_pos hcb] at h₂
            simp at h₂
          · rw [if_neg (show ¬ a.toNat < c.toNat by omega),
              if_neg (show ¬ c.toNat < a.toNat by omega)]
            rw [if_neg hab, if_neg hba] at h₁
            rw [if_neg hbc, if_neg hcb] at h₂
            exact charListLt_trans as bs cs h₁ h₂

theorem charListLt_antisymm : ∀ l₁ l₂ : List Char,
    charListLt l₁ l₂ = false → charListLt l₂ l₁ = false → l₁ = l₂
  | [], [], _, _ => rfl
  | [], _ :: _, h₁, _ => by simp [charListLt] at h₁
  | _ :: _, [], _, h₂ => by simp [charListLt] at h₂
  | a :: as, b :: bs, h₁, h₂ => by
    simp only [charListLt] at h₁ h₂
    by_cases hab : a.toNat < b.toNat <;> by_cases hba : b.toNat < a.toNat <;>
      simp_all
    have hab2 : a = b := by
      have : Char.ofNat a.toNat = Char.ofNat b.toNat := by rw [show a.toNat = b.toNat by omega]
      simpa [Char.ofNat_toNat] using this
    exact ⟨hab2, charListLt_antisymm as bs h₁ h₂⟩

theorem pathLtB_irrefl (s : String) : pathLtB s s = false :=
  charListLt_irrefl s.data

theorem pathLtB_trans {a b c : String} (h₁ : pathLtB a b = true)
    (h₂ : pathLtB b c = true) : pathLtB a c = true :=
  charListLt_trans a.data b.data c.data h₁ h₂

theorem pathLtB_antisymm {a b : String} (h₁ : pathLtB a b = false)
    (h₂ : pathLtB b a = false) : a = b := by
  have hd : a.data = b.data := charListLt_antisymm a.data b.data h₁ h₂
  have : a.toList = b.toList := hd
  exact String.toList_inj.mp this

theorem pathLtB_asymm {a b : String} (h : pathLtB a b = true) : pathLtB b a = false := by
  by_contra hc
  have h2 : pathLtB b a = true := by
    cases hb : pathLtB b a with
    | true => rfl
    | false => exact absurd hb hc
  have := pathLtB_trans h h2
  rw [pathLtB_irrefl] at this
  simp at this

theorem entryLe_refl (a : FileEntry) : entryLe a a :=
  Or.inr ⟨rfl, Nat.le_refl _⟩

theorem entryLe_trans {a b c : FileEntry} (h₁ : entryLe a b) (h₂ : entryLe b c) :
    entryLe a c := by
  rcases h₁ with h₁ | ⟨hp₁, hl₁⟩
  · rcases h₂ with h₂ | ⟨hp₂, _⟩
    · exact Or.inl (pathLtB_trans h₁ h₂)
    · exact Or.inl (hp₂ ▸ h₁)
  · rcases h₂ with h₂ | ⟨hp₂, hl₂⟩
    · exact Or.inl (hp₁ ▸ h₂)
    · exact Or.inr ⟨hp₁.trans hp₂, hl₁.trans hl₂⟩

theorem entryLe_total (a b : FileEntry) : entryLe a b ∨ entryLe b a := by
  cases hab : pathLtB a.path b.path with
  | true => exact Or.inl (Or.inl hab)
  | false =>
    cases hba : pathLtB b.path a.path with
    | true => exact Or.inr (Or.inl hba)
    | false =>
      have hp : a.path = b.path := pathLtB_antisymm hab hba
      rcases Nat.le_total a.content.length b.content.length with h | h
      · exact Or.inl (Or.inr ⟨hp, h⟩)
      · exact Or.inr (Or.inr ⟨hp.symm, h⟩)

theorem entryLe_path {a b : FileEntry} (h : entryLe a b) :
    pathLtB a.path b.path = true ∨ a.path = b.path := by
  rcases h with h | ⟨hp, _⟩
  · exact Or.inl h
  · exact Or.inr hp

theorem entryLe_of_path_ne {a b : FileEntry} (h : entryLe a b)
    (hne : a.path ≠ b.path) : entryPathLt a b := by
  rcases h with h | ⟨hp, _⟩
  · exact h
  · exact absurd hp hne

theorem entryPathLt_trans {a b c : FileEntry} (h₁ : entryPathLt a b)
    (h₂ : entryPathLt b c) : entryPathLt a c :=
  pathLtB_trans h₁ h₂

theorem entryPathLt_irrefl (a : FileEntry) : ¬ entryPathLt a a := by
  unfold entryPathLt
  rw [pathLtB_irrefl]
  simp

theorem entryPathLt_ne {a b : FileEntry} (h : entryPathLt a b) : a.path ≠ b.path := by
  intro hp
  unfold entryPathLt at h
  rw [hp, pathLtB_irrefl] at h
  simp at h

theorem entryLe_of_entryPathLt {a b : FileEntry} (h : entryPathLt a b) : entryLe a b :=
  Or.inl h

theorem or_add_disjoint {b : Nat} (k : Nat) {a : Nat} (ha : 2 ^ k ∣ a) (hb : b < 2 ^ k) :
    a ||| b = a + b := by
  obtain ⟨q, rfl⟩ := ha
  rw [← Nat.mul_add_lt_is_or hb q]

theorem and_shiftLeft_shiftRight (w m s : Nat) :
    (w &&& (m <<< s)) >>> s = (w >>> s) &&& m := by
  apply Nat.eq_of_testBit_eq
  intro i
  simp only [Nat.testBit_shiftRight, Nat.testBit_and, Nat.testBit_shiftLeft]
  have h1 : s ≤ s + i := Nat.le_add_right s i
  simp [h1, Nat.add_sub_cancel_left]

theorem abs_new_u8_arith {fid sl sc el ec : Nat} (h1 : fid < 2 ^ 8) (h2 : sl < 2 ^ 16)
    (h3 : sc < 2 ^ 8) (h4 : el < 2 ^ 16) (h5 : ec < 2 ^ 8) :
    AbsolutePosition.new u8Policy fid sl sc el ec =
      fid * 2 ^ 56 + sl * 2 ^ 40 + sc * 2 ^ 32 + el * 2 ^ 16 + ec * 2 ^ 8 := by
  have e0 : AbsolutePosition.new u8Policy fid sl sc el ec =
      ((fid <<< 56) ||| (sl <<< 40) ||| (sc <<< 32) ||| (el <<< 16) ||| (ec <<< 8)) % 2 ^ 64 := by
    simp [AbsolutePosition.new, u8Policy, impl_file_id]
  rw [e0]
  rw [Nat.shiftLeft_eq, Nat.shiftLeft_eq, Nat.shiftLeft_eq, Nat.shiftLeft_eq, Nat.shiftLeft_eq]
  have s1 : fid * 2 ^ 56 ||| sl * 2 ^ 40 = fid * 2 ^ 56 + sl * 2 ^ 40 :=
    or_add_disjoint 56 ⟨fid, by ring⟩ (by omega)
  have s2 : fid * 2 ^ 56 + sl * 2 ^ 40 ||| sc * 2 ^ 32 =
      fid * 2 ^ 56 + sl * 2 ^ 40 + sc * 2 ^ 32 :=
    or_add_disjoint 40 ⟨fid * 2 ^ 16 + sl, by ring⟩ (by omega)
  have s3 : fid * 2 ^ 56 + sl * 2 ^ 40 + sc * 2 ^ 32 ||| el * 2 ^ 16 =
      fid * 2 ^ 56 + sl * 2 ^ 40 + sc * 2 ^ 32 + el * 2 ^ 16 :=
    or_add_disjoint 32 ⟨fid * 2 ^ 24 + sl * 2 ^ 8 + sc, by ring⟩ (by omega)
  have s4 : fid * 2 ^ 56 + sl * 2 ^ 40 + sc * 2 ^ 32 + el * 2 ^ 16 ||| ec * 2 ^ 8 =
      fid * 2 ^ 56 + sl * 2 ^ 40 + sc * 2 ^ 32 + el * 2 ^ 16 + ec * 2 ^ 8 :=
    or_add_disjoint 16 ⟨fid * 2 ^ 40 + sl * 2 ^ 24 + sc * 2 ^ 16 + el, by ring⟩ (by omega)
  rw [s1, s2, s3, s4]
  exact Nat.mod_eq_of_lt (by omega)

theorem abs_new_u16_arith {fid sl sc el ec : Nat} (h1 : fid < 2 ^ 16) (h2 : sl < 2 ^ 16)
    (h3 : sc < 2 ^ 8) (h4 : el < 2 ^ 16) (h5 : ec < 2 ^ 8) :
    AbsolutePosition.new u16Policy fid sl sc el ec =
      fid * 2 ^ 48 + sl * 2 ^ 32 + sc * 2 ^ 24 + el * 2 ^ 8 + ec := by
  have e0 : AbsolutePosition.new u16Policy fid sl sc el ec =
      ((fid <<< 48) ||| (sl <<< 32) ||| (sc <<< 24) ||| (el <<< 8) ||| (ec <<< 0)) % 2 ^ 64 := by
    simp [AbsolutePosition.new, u16Policy, impl_file_id]
  rw [e0]
  rw [Nat.shiftLeft_eq, Nat.shiftLeft_eq, Nat.shiftLeft_eq, Nat.shiftLeft_eq, Nat.shiftLeft_eq]
  have s1 : fid * 2 ^ 48 ||| sl * 2 ^ 32 = fid * 2 ^ 48 + sl * 2 ^ 32 :=
    or_add_disjoint 48 ⟨fid, by ring⟩ (by omega)
  have s2 : fid * 2 ^ 48 + sl * 2 ^ 32 ||| sc * 2 ^ 24 =
      fid * 2 ^ 48 + sl * 2 ^ 32 + sc * 2 ^ 24 :=
    or_add_disjoint 32 ⟨fid * 2 ^ 16 + sl, by ring⟩ (by omega)
  have s3 : fid * 2 ^ 48 + sl * 2 ^ 32 + sc * 2 ^ 24 ||| el * 2 ^ 8 =
      fid * 2 ^ 48 + sl * 2 ^ 32 + sc * 2 ^ 24 + el * 2 ^ 8 :=
    or_add_disjoint 24 ⟨fid * 2 ^ 24 + sl * 2 ^ 8 + sc, by ring⟩ (by omega)
  have s4 : fid * 2 ^ 48 + sl * 2 ^ 32 + sc * 2 ^ 24 + el * 2 ^ 8 ||| ec * 2 ^ 0 =
      fid * 2 ^ 48 + sl * 2 ^ 32 + sc * 2 ^ 24 + el * 2 ^ 8 + ec * 2 ^ 0 :=
    or_add_disjoint 8 ⟨fid * 2 ^ 40 + sl * 2 ^ 24 + sc * 2 ^ 16 + el, by ring⟩ (by omega)
  rw [s1, s2, s3, s4]
  have : ec * 2 ^ 0 = ec := by ring
  rw [this]
  exact Nat.mod_eq_of_lt (by omega)

theorem rel_new_arith {sl sc el ec : Nat} (h2 : sl < 2 ^ 16) (h3 : sc < 2 ^ 8)
    (h4 : el < 2 ^ 16) (h5 : ec < 2 ^ 8) :
    RelativePosition.new sl sc el ec = sl * 2 ^ 32 + sc * 2 ^ 24 + el * 2 ^ 8 + ec := by
  unfold RelativePosition.new
  rw [Nat.shiftLeft_eq, Nat.shiftLeft_eq, Nat.shiftLeft_eq]
  have s1 : sl * 2 ^ 32 ||| sc * 2 ^ 24 = sl * 2 ^ 32 + sc * 2 ^ 24 :=
    or_add_disjoint 32 ⟨sl, by ring⟩ (by omega)
  have s2 : sl * 2 ^ 32 + sc * 2 ^ 24 ||| el * 2 ^ 8 =
      sl * 2 ^ 32 + sc * 2 ^ 24 + el * 2 ^ 8 :=
    or_add_disjoint 24 ⟨sl * 2 ^ 8 + sc, by ring⟩ (by omega)
  have s3 : sl * 2 ^ 32 + sc * 2 ^ 24 + el * 2 ^ 8 ||| ec =
      sl * 2 ^ 32 + sc * 2 ^ 24 + el * 2 ^ 8 + ec :=
    or_add_disjoint 8 ⟨sl * 2 ^ 24 + sc * 2 ^ 16 + el, by ring⟩ (by omega)
  rw [s1, s2, s3]
  exact Nat.mod_eq_of_lt (by omega)

theorem extract_field (x s n : Nat) : (x >>> s) &&& (2 ^ n - 1) = x / 2 ^ s % 2 ^ n := by
  rw [Nat.shiftRight_eq_div_pow, Nat.and_pow_two_sub_one_eq_mod]

theorem abs_start_line_u8 {fid sl sc el ec : Nat} (h1 : fid < 2 ^ 8) (h2 : sl < 2 ^ 16)
    (h3 : sc < 2 ^ 8) (h4 : el < 2 ^ 16) (h5 : ec < 2 ^ 8) :
    AbsolutePosition.start_line u8Policy (AbsolutePosition.new u8Policy fid sl sc el ec) = sl := by
  show (AbsolutePosition.new u8Policy fid sl sc el ec >>> 40) &&& (2 ^ 16 - 1) = sl
  rw [abs_new_u8_arith h1 h2 h3 h4 h5, extract_field]
  omega

theorem abs_start_column_u8 {fid sl sc el ec : Nat} (h1 : fid < 2 ^ 8) (h2 : sl < 2 ^ 16)
    (h3 : sc < 2 ^ 8) (h4 : el < 2 ^ 16) (h5 : ec < 2 ^ 8) :
    AbsolutePosition.start_column u8Policy (AbsolutePosition.new u8Policy fid sl sc el ec) = sc := by
  show (AbsolutePosition.new u8Policy fid sl sc el ec >>> 32) &&& (2 ^ 8 - 1) = sc
  rw [abs_new_u8_arith h1 h2 h3 h4 h5, extract_field]
  omega

theorem abs_end_line_u8 {fid sl sc el ec : Nat} (h1 : fid < 2 ^ 8) (h2 : sl < 2 ^ 16)
    (h3 : sc < 2 ^ 8) (h4 : el < 2 ^ 16) (h5 : ec < 2 ^ 8) :
    AbsolutePosition.end_line u8Policy (AbsolutePosition.new u8Policy fid sl sc el ec) = el := by
  show (AbsolutePosition.new u8Policy fid sl sc el ec >>> 16) &&& (2 ^ 16 - 1) = el
  rw [abs_new_u8_arith h1 h2 h3 h4 h5, extract_field]
  omega

theorem abs_end_column_u8 {fid sl sc el ec : Nat} (h1 : fid < 2 ^ 8) (h2 : sl < 2 ^ 16)
    (h3 : sc < 2 ^ 8) (h4 : el < 2 ^ 16) (h5 : ec < 2 ^ 8) :
    AbsolutePosition.end_column u8Policy (AbsolutePosition.new u8Policy fid sl sc el ec) = ec := by
  show (AbsolutePosition.new u8Policy fid sl sc el ec >>> 8) &&& (2 ^ 8 - 1) = ec
  rw [abs_new_u8_arith h1 h2 h3 h4 h5, extract_field]
  omega

theorem abs_start_line_u16 {fid sl sc el ec : Nat} (h1 : fid < 2 ^ 16) (h2 : sl < 2 ^ 16)
    (h3 : sc < 2 ^ 8) (h4 : el < 2 ^ 16) (h5 : ec < 2 ^ 8) :
    AbsolutePosition.start_line u16Policy (AbsolutePosition.new u16Policy fid sl sc el ec) = sl := by
  show (AbsolutePosition.new u16Policy fid sl sc el ec >>> 32) &&& (2 ^ 16 - 1) = sl
  rw [abs_new_u16_arith h1 h2 h3 h4 h5, extract_field]
  omega

theorem abs_start_column_u16 {fid sl sc el ec : Nat} (h1 : fid < 2 ^ 16) (h2 : sl < 2 ^ 16)
    (h3 : sc < 2 ^ 8) (h4 : el < 2 ^ 16) (h5 : ec < 2 ^ 8) :
    AbsolutePosition.start_column u16Policy (AbsolutePosition.new u16Policy fid sl sc el ec) = sc := by
  show (AbsolutePosition.new u16Policy fid sl sc el ec >>> 24) &&& (2 ^ 8 - 1) = sc
  rw [abs_new_u16_arith h1 h2 h3 h4 h5, extract_field]
  omega

theorem abs_end_line_u16 {fid sl sc el ec : Nat} (h1 : fid < 2 ^ 16) (h2 : sl < 2 ^ 16)
    (h3 : sc < 2 ^ 8) (h4 : el < 2 ^ 16) (h5 : ec < 2 ^ 8) :
    AbsolutePosition.end_line u16Policy (AbsolutePosition.new u16Policy fid sl sc el ec) = el := by
  show (AbsolutePosition.new u16Policy fid sl sc el ec >>> 8) &&& (2 ^ 16 - 1) = el
  rw [abs_new_u16_arith h1 h2 h3 h4 h5, extract_field]
  omega

theorem abs_end_column_u16 {fid sl sc el ec : Nat} (h1 : fid < 2 ^ 16) (h2 : sl < 2 ^ 16)
    (h3 : sc < 2 ^ 8) (h4 : el < 2 ^ 16) (h5 : ec < 2 ^ 8) :
    AbsolutePosition.end_column u16Policy (AbsolutePosition.new u16Policy fid sl sc el ec) = ec := by
  show (AbsolutePosition.new u16Policy fid sl sc el ec >>> 0) &&& (2 ^ 8 - 1) = ec
  rw [abs_new_u16_arith h1 h2 h3 h4 h5, extract_field]
  omega

theorem file_id_val_u8 (w : Nat) :
    (w &&& u8Policy.FILE_ID_MASK) >>> u8Policy.FILE_ID_SHIFT = w / 2 ^ 56 % 2 ^ 8 := by
  show (w &&& ((2 ^ 8 - 1) <<< 56)) >>> 56 = w / 2 ^ 56 % 2 ^ 8
  rw [and_shiftLeft_shiftRight, extract_field]

theorem file_id_val_u16 (w : Nat) :
    (w &&& u16Policy.FILE_ID_MASK) >>> u16Policy.FILE_ID_SHIFT = w / 2 ^ 48 % 2 ^ 16 := by
  show (w &&& ((2 ^ 16 - 1) <<< 48)) >>> 48 = w / 2 ^ 48 % 2 ^ 16
  rw [and_shiftLeft_shiftRight, extract_field]

theorem abs_file_id_u8_some (w : Nat) :
    AbsolutePosition.file_id u8Policy w = some (w / 2 ^ 56 % 2 ^ 8) := by
  show (if (w &&& u8Policy.FILE_ID_MASK) >>> u8Policy.FILE_ID_SHIFT ≤ u8Policy.MAX_FILES
    then some ((w &&& u8Policy.FILE_ID_MASK) >>> u8Policy.FILE_ID_SHIFT) else none) = _
  rw [file_id_val_u8]
  have hb : w / 2 ^ 56 % 2 ^ 8 ≤ u8Policy.MAX_FILES := by
    show _ ≤ 255
    have := Nat.mod_lt (w / 2 ^ 56) (show 0 < 2 ^ 8 by norm_num)
    omega
  rw [if_pos hb]

theorem abs_file_id_u16_some (w : Nat) :
    AbsolutePosition.file_id u16Policy w = some (w / 2 ^ 48 % 2 ^ 16) := by
  show (if (w &&& u16Policy.FILE_ID_MASK) >>> u16Policy.FILE_ID_SHIFT ≤ u16Policy.MAX_FILES
    then some ((w &&& u16Policy.FILE_ID_MASK) >>> u16Policy.FILE_ID_SHIFT) else none) = _
  rw [file_id_val_u16]
  have hb : w / 2 ^ 48 % 2 ^ 16 ≤ u16Policy.MAX_FILES := by
    show _ ≤ 65535
    have := Nat.mod_lt (w / 2 ^ 48) (show 0 < 2 ^ 16 by norm_num)
    omega
  rw [if_pos hb]

theorem abs_file_id_u8_new {fid sl sc el ec : Nat} (h1 : fid < 2 ^ 8) (h2 : sl < 2 ^ 16)
    (h3 : sc < 2 ^ 8) (h4 : el < 2 ^ 16) (h5 : ec < 2 ^ 8) :
    AbsolutePosition.file_id u8Policy (AbsolutePosition.new u8Policy fid sl sc el ec) = some fid := by
  rw [abs_file_id_u8_some, abs_new_u8_arith h1 h2 h3 h4 h5]
  congr 1
  omega

theorem abs_file_id_u16_new {fid sl sc el ec : Nat} (h1 : fid < 2 ^ 16) (h2 : sl < 2 ^ 16)
    (h3 : sc < 2 ^ 8) (h4 : el < 2 ^ 16) (h5 : ec < 2 ^ 8) :
    AbsolutePosition.file_id u16Policy (AbsolutePosition.new u16Policy fid sl sc el ec) = some fid := by
  rw [abs_file_id_u16_some, abs_new_u16_arith h1 h2 h3 h4 h5]
  congr 1
  omega

theorem rel_start_line_new {sl sc el ec : Nat} (h2 : sl < 2 ^ 16) (h3 : sc < 2 ^ 8)
    (h4 : el < 2 ^ 16) (h5 : ec < 2 ^ 8) :
    RelativePosition.start_line (RelativePosition.new sl sc el ec) = sl := by
  show (RelativePosition.new sl sc el ec >>> 32) &&& (2 ^ 16 - 1) = sl
  rw [rel_new_arith h2 h3 h4 h5, extract_field]
  omega

theorem rel_start_column_new {sl sc el ec : Nat} (h2 : sl < 2 ^ 16) (h3 : sc < 2 ^ 8)
    (h4 : el < 2 ^ 16) (h5 : ec < 2 ^ 8) :
    RelativePosition.start_column (RelativePosition.new sl sc el ec) = sc := by
  show (RelativePosition.new sl sc el ec >>> 24) &&& (2 ^ 8 - 1) = sc
  rw [rel_new_arith h2 h3 h4 h5, extract_field]
  omega

theorem rel_end_line_new {sl sc el ec : Nat} (h2 : sl < 2 ^ 16) (h3 : sc < 2 ^ 8)
    (h4 : el < 2 ^ 16) (h5 : ec < 2 ^ 8) :
    RelativePosition.end_line (RelativePosition.new sl sc el ec) = el := by
  show (RelativePosition.new sl sc el ec >>> 8) &&& (2 ^ 16 - 1) = el
  rw [rel_new_arith h2 h3 h4 h5, extract_field]
  omega

theorem rel_end_column_new {sl sc el ec : Nat} (h2 : sl < 2 ^ 16) (h3 : sc < 2 ^ 8)
    (h4 : el < 2 ^ 16) (h5 : ec < 2 ^ 8) :
    RelativePosition.end_column (RelativePosition.new sl sc el ec) = ec := by
  have e : RelativePosition.end_column (RelativePosition.new sl sc el ec) =
      (RelativePosition.new sl sc el ec >>> 0) &&& (2 ^ 8 - 1) := by
    show RelativePosition.new sl sc el ec &&& (2 ^ 8 - 1) = _
    rw [Nat.shiftRight_zero]
  rw [e, rel_new_arith h2 h3 h4 h5, extract_field]
  omega

theorem restoreFromBuffer_id : ∀ (l : List FileEntry) (pre : List Nat),
    restoreFromBuffer (pre ++ (l.map FileEntry.content).flatten) pre.length l = l
  | [], _ => rfl
  | e :: rest, pre => by
    have hdrop : (pre ++ (e.content ++ (rest.map FileEntry.content).flatten)).drop pre.length
        = e.content ++ (rest.map FileEntry.content).flatten := List.drop_left pre _
    have htake : (e.content ++ (rest.map FileEntry.content).flatten).take e.content.length
        = e.content := List.take_left _ _
    simp only [restoreFromBuffer, List.map_cons, List.flatten_cons, hdrop, htake]
    congr 1
    rw [← List.append_assoc, show pre.length + e.content.length = (pre ++ e.content).length
      from (List.length_append pre e.content).symm]
    exact restoreFromBuffer_id rest (pre ++ e.content)

theorem restoreFromBuffer_flatten (l : List FileEntry) :
    restoreFromBuffer ((l.map FileEntry.content).flatten) 0 l = l :=
  restoreFromBuffer_id l []

theorem buildPathToId_eq (P : FileIdPolicy) : ∀ (l : List FileEntry) (k : Nat),
    k + l.length ≤ P.MAX_FILES → buildPathToId P l k = Except.ok (pairsOf l k)
  | [], _, _ => rfl
  | e :: rest, k, h => by
    have hlen : (e :: rest).length = rest.length + 1 := List.length_cons e rest
    unfold buildPathToId
    rw [if_neg (show ¬ k + 1 > P.MAX_FILES by omega)]
    rw [buildPathToId_eq P rest (k + 1) (by omega)]
    rfl

theorem buildLineOffsets_eq (P : FileIdPolicy) : ∀ (l : List FileEntry) (k : Nat),
    k + l.length ≤ P.MAX_FILES → buildLineOffsets P l k = Except.ok (cloListOf l k)
  | [], _, _ => rfl
  | e :: rest, k, h => by
    have hlen : (e :: rest).length = rest.length + 1 := List.length_cons e rest
    unfold buildLineOffsets
    rw [if_neg (show ¬ k + 1 > P.MAX_FILES by omega)]
    rw [buildLineOffsets_eq P rest (k + 1) (by omega)]
    rfl

theorem pairsOf_lookup_ge : ∀ (l : List FileEntry) (k : Nat) (p : String) (n : Nat),
    (pairsOf l k).lookup p = some n → k + 1 ≤ n
  | [], _, _, _, h => by simp [pairsOf, List.lookup] at h
  | e :: rest, k, p, n, h => by
    simp only [pairsOf, List.lookup] at h
    cases hpe : p == e.path with
    | true =>
      rw [hpe] at h
      simp at h
      omega
    | false =>
      rw [hpe] at h
      simp only at h
      have := pairsOf_lookup_ge rest (k + 1) p n h
      omega

theorem pairsOf_lookup_get : ∀ (l : List FileEntry) (k : Nat),
    (l.map FileEntry.path).Nodup → ∀ i (h : i < l.length),
    (pairsOf l k).lookup ((l.get ⟨i, h⟩).path) = some (k + i + 1)
  | [], _, _, i, h => by simp at h
  | e :: rest, k, hnd, 0, h => by
    simp only [pairsOf, List.get, List.lookup, beq_self_eq_true]
  | e :: rest, k, hnd, i + 1, h => by
    have hi : i < rest.length := by
      have := h
      simp only [List.length_cons] at this
      omega
    have hmem : (rest.get ⟨i, hi⟩).path ∈ rest.map FileEntry.path :=
      List.mem_map_of_mem FileEntry.path (List.get_mem rest i hi)
    have hne : (rest.get ⟨i, hi⟩).path ≠ e.path := by
      intro heq
      rw [List.map_cons, List.nodup_cons] at hnd
      exact hnd.1 (heq ▸ hmem)
    have hbeq : ((rest.get ⟨i, hi⟩).path == e.path) = false :=
      beq_eq_false_iff_ne.mpr hne
    show (pairsOf (e :: rest) k).lookup ((rest.get ⟨i, hi⟩).path) = some (k + (i + 1) + 1)
    simp only [pairsOf, List.lookup, hbeq]
    have := pairsOf_lookup_get rest (k + 1)
      (by rw [List.map_cons, List.nodup_cons] at hnd; exact hnd.2) i hi
    rw [this]
    congr 1
    omega

theorem pairwise_cons_of_cons_cons {x b : FileEntry} {rest : List FileEntry}
    (h : List.Pairwise entryLe (x :: b :: rest)) : List.Pairwise entryLe (x :: rest) := by
  rw [List.pairwise_cons] at h ⊢
  obtain ⟨hx, hb⟩ := h
  rw [List.pairwise_cons] at hb
  exact ⟨fun y hy => hx y (List.mem_cons_of_mem b hy), hb.2⟩

theorem dedupFrom_subset : ∀ (x : FileEntry) (l : List FileEntry) (e : FileEntry),
    e ∈ dedupFrom x l → e ∈ l
  | _, [], _, h => by simp [dedupFrom] at h
  | x, b :: rest, e, h => by
    unfold dedupFrom at h
    by_cases hx : x.path = b.path
    · rw [if_pos hx] at h
      exact List.mem_cons_of_mem b (dedupFrom_subset x rest e h)
    · rw [if_neg hx] at h
      rcases List.mem_cons.mp h with rfl | h
      · exact List.mem_cons_self e rest
      · exact List.mem_cons_of_mem b (dedupFrom_subset b rest e h)

theorem dedupFrom_lt : ∀ (x : FileEntry) (l : List FileEntry),
    List.Pairwise entryLe (x :: l) → ∀ q ∈ dedupFrom x l, entryPathLt x q
  | _, [], _, q, hq => by simp [dedupFrom] at hq
  | x, b :: rest, h, q, hq => by
    unfold dedupFrom at hq
    by_cases hx : x.path = b.path
    · rw [if_pos hx] at hq
      exact dedupFrom_lt x rest (pairwise_cons_of_cons_cons h) q hq
    · rw [if_neg hx] at hq
      have hxb : entryLe x b := (List.pairwise_cons.mp h).1 b (List.mem_cons_self b rest)
      have hxblt : entryPathLt x b := entryLe_of_path_ne hxb hx
      rcases List.mem_cons.mp hq with rfl | hq
      · exact hxblt
      · have hb : List.Pairwise entryLe (b :: rest) := (List.pairwise_cons.mp h).2
        exact entryPathLt_trans hxblt (dedupFrom_lt b rest hb q hq)

theorem dedupFrom_nodup : ∀ (x : FileEntry) (l : List FileEntry),
    List.Pairwise entryLe (x :: l) → ((dedupFrom x l).map FileEntry.path).Nodup
  | _, [], _ => by simp [dedupFrom]
  | x, b :: rest, h => by
    unfold dedupFrom
    by_cases hx : x.path = b.path
    · rw [if_pos hx]
      exact dedupFrom_nodup x rest (pairwise_cons_of_cons_cons h)
    · rw [if_neg hx]
      have hb : List.Pairwise entryLe (b :: rest) := (List.pairwise_cons.mp h).2
      rw [List.map_cons, List.nodup_cons]
      refine ⟨?_, dedupFrom_nodup b rest hb⟩
      intro hmem
      rcases List.mem_map.mp hmem with ⟨q, hq, hqp⟩
      exact entryPathLt_ne (dedupFrom_lt b rest hb q hq) hqp.symm

theorem dedupByPath_nodup (l : List FileEntry) (h : List.Pairwise entryLe l) :
    ((dedupByPath l).map FileEntry.path).Nodup := by
  cases l with
  | nil => simp [dedupByPath]
  | cons a rest =>
    simp only [dedupByPath, List.map_cons, List.nodup_cons]
    refine ⟨?_, dedupFrom_nodup a rest h⟩
    intro hmem
    rcases List.mem_map.mp hmem with ⟨q, hq, hqp⟩
    exact entryPathLt_ne (dedupFrom_lt a rest h q hq) hqp.symm

theorem dedupByPath_subset : ∀ (l : List FileEntry), ∀ e ∈ dedupByPath l, e ∈ l
  | [], e, he => by simp [dedupByPath] at he
  | a :: rest, e, he => by
    simp only [dedupByPath] at he
    rcases List.mem_cons.mp he with rfl | he
    · exact List.mem_cons_self e rest
    · exact List.mem_cons_of_mem a (dedupFrom_subset a rest e he)

theorem dedupFrom_path_mem_fwd (x : FileEntry) (l : List FileEntry)
    (h : List.Pairwise entryLe (x :: l)) (q : String)
    (hq : q ∈ (dedupFrom x l).map FileEntry.path) :
    q ∈ l.map FileEntry.path ∧ q ≠ x.path := by
  rcases List.mem_map.mp hq with ⟨e, he, rfl⟩
  refine ⟨List.mem_map_of_mem _ (dedupFrom_subset x l e he), ?_⟩
  exact fun hp => entryPathLt_ne (dedupFrom_lt x l h e he) hp.symm

theorem dedupFrom_path_mem_rev : ∀ (x : FileEntry) (l : List FileEntry),
    List.Pairwise entryLe (x :: l) → ∀ q : String,
    q ∈ l.map FileEntry.path → q ≠ x.path → q ∈ (dedupFrom x l).map FileEntry.path
  | _, [], _, q, hq, _ => by simp at hq
  | x, b :: rest, h, q, hq, hne => by
    rw [List.map_cons, List.mem_cons] at hq
    unfold dedupFrom
    by_cases hx : x.path = b.path
    · rw [if_pos hx]
      rcases hq with rfl | hq2
      · exact absurd hx.symm hne
      · exact dedupFrom_path_mem_rev x rest (pairwise_cons_of_cons_cons h) q hq2 hne
    · rw [if_neg hx]
      rw [List.map_cons, List.mem_cons]
      have hb : List.Pairwise entryLe (b :: rest) := (List.pairwise_cons.mp h).2
      rcases hq with rfl | hq2
      · exact Or.inl rfl
      · by_cases hqb : q = b.path
        · exact Or.inl hqb
        · exact Or.inr (dedupFrom_path_mem_rev b rest hb q hq2 hqb)

theorem dedupByPath_path_mem (l : List FileEntry) (h : List.Pairwise entryLe l) (q : String) :
    q ∈ (dedupByPath l).map FileEntry.path ↔ q ∈ l.map FileEntry.path := by
  cases l with
  | nil => simp [dedupByPath]
  | cons a rest =>
    simp only [dedupByPath, List.map_cons, List.mem_cons]
    constructor
    · rintro (rfl | hq)
      · exact Or.inl rfl
      · exact Or.inr (dedupFrom_path_mem_fwd a rest h q hq).1
    · rintro (rfl | hq)
      · exact Or.inl rfl
      · by_cases hqa : q = a.path
        · exact Or.inl hqa
        · exact Or.inr (dedupFrom_path_mem_rev a rest h q hq hqa)

theorem entryLe_len_of_path_eq {a b : FileEntry} (h : entryLe a b) (hp : a.path = b.path) :
    a.content.length ≤ b.content.length := by
  rcases h with h | ⟨_, hl⟩
  · exact absurd hp (entryPathLt_ne h)
  · exact hl

theorem dedupFrom_min : ∀ (x : FileEntry) (l : List FileEntry),
    List.Pairwise entryLe (x :: l) → ∀ e ∈ dedupFrom x l, ∀ f ∈ l,
    f.path = e.path → e.content.length ≤ f.content.length
  | _, [], _, e, he, _, _, _ => by simp [dedupFrom] at he
  | x, b :: rest, h, e, he, f, hf, hfe => by
    unfold dedupFrom at he
    by_cases hx : x.path = b.path
    · rw [if_pos hx] at he
      have hxe : entryPathLt x e := dedupFrom_lt x rest (pairwise_cons_of_cons_cons h) e he
      rcases List.mem_cons.mp hf with rfl | hf2
      · exact absurd (hx.trans hfe) (entryPathLt_ne hxe)
      · exact dedupFrom_min x rest (pairwise_cons_of_cons_cons h) e he f hf2 hfe
    · rw [if_neg hx] at he
      have hb : List.Pairwise entryLe (b :: rest) := (List.pairwise_cons.mp h).2
      rcases List.mem_cons.mp he with rfl | he2
      · rcases List.mem_cons.mp hf with rfl | hf2
        · exact Nat.le_refl _
        · exact entryLe_len_of_path_eq ((List.pairwise_cons.mp hb).1 f hf2) hfe.symm
      · have hbe : entryPathLt b e := dedupFrom_lt b rest hb e he2
        rcases List.mem_cons.mp hf with rfl | hf2
        · exact absurd hfe (entryPathLt_ne hbe)
        · exact dedupFrom_min b rest hb e he2 f hf2 hfe

theorem dedupByPath_min (l : List FileEntry) (h : List.Pairwise entryLe l) :
    ∀ e ∈ dedupByPath l, ∀ f ∈ l, f.path = e.path →
    e.content.length ≤ f.content.length := by
  cases l with
  | nil => intro e he; simp [dedupByPath] at he
  | cons a rest =>
    intro e he f hf hfe
    simp only [dedupByPath] at he
    rcases List.mem_cons.mp he with rfl | he2
    · rcases List.mem_cons.mp hf with rfl | hf2
      · exact Nat.le_refl _
      · exact entryLe_len_of_path_eq ((List.pairwise_cons.mp h).1 f hf2) hfe.symm
    · have hae : entryPathLt a e := dedupFrom_lt a rest h e he2
      rcases List.mem_cons.mp hf with rfl | hf2
      · exact absurd hfe (entryPathLt_ne hae)
      · exact dedupFrom_min a rest h e he2 f hf2 hfe

theorem dedupFrom_length : ∀ (x : FileEntry) (l : List FileEntry),
    (dedupFrom x l).length ≤ l.length
  | _, [] => by simp [dedupFrom]
  | x, b :: rest => by
    unfold dedupFrom
    by_cases hx : x.path = b.path
    · rw [if_pos hx]
      exact Nat.le_succ_of_le (dedupFrom_length x rest)
    · rw [if_neg hx]
      simp only [List.length_cons]
      exact Nat.succ_le_succ (dedupFrom_length b rest)

theorem dedupByPath_length : ∀ l : List FileEntry, (dedupByPath l).length ≤ l.length
  | [] => Nat.le_refl _
  | a :: rest => by
    simp only [dedupByPath, List.length_cons]
    exact Nat.succ_le_succ (dedupFrom_length a rest)

theorem dedupFrom_eq_self : ∀ (x : FileEntry) (l : List FileEntry),
    x.path ∉ l.map FileEntry.path → (l.map FileEntry.path).Nodup →
    dedupFrom x l = l
  | _, [], _, _ => rfl
  | x, b :: rest, hx, hnd => by
    rw [List.map_cons] at hx hnd
    rw [List.nodup_cons] at hnd
    unfold dedupFrom
    rw [if_neg (show ¬ x.path = b.path from fun hp => hx (by
      rw [hp]; exact List.mem_cons_self b.path (rest.map FileEntry.path)))]
    rw [dedupFrom_eq_self b rest hnd.1 hnd.2]

theorem dedupByPath_eq_self (l : List FileEntry) (h : (l.map FileEntry.path).Nodup) :
    dedupByPath l = l := by
  cases l with
  | nil => rfl
  | cons a rest =>
    rw [List.map_cons, List.nodup_cons] at h
    simp only [dedupByPath]
    rw [dedupFrom_eq_self a rest h.1 h.2]

theorem sorted_sortEntries (l : List FileEntry) :
    List.Pairwise entryLe (List.insertionSort entryLe l) := by
  haveI : IsTotal FileEntry entryLe := ⟨entryLe_total⟩
  haveI : IsTrans FileEntry entryLe := ⟨fun _ _ _ hab hbc => entryLe_trans hab hbc⟩
  exact List.sorted_insertionSort entryLe l

theorem pairwise_lt_of_sorted_nodup (l : List FileEntry)
    (hs : List.Pairwise entryLe l) (hnd : (l.map FileEntry.path).Nodup) :
    List.Pairwise entryPathLt l := by
  have hne : List.Pairwise (fun a b : FileEntry => a.path ≠ b.path) l := by
    rw [List.Nodup, List.pairwise_map] at hnd
    exact hnd
  exact (hs.and hne).imp fun h => entryLe_of_path_ne h.1 h.2

theorem sorted_nodup_perm_eq {l₁ l₂ : List FileEntry}
    (hp : l₁.Perm l₂) (h₁ : List.Pairwise entryPathLt l₁)
    (h₂ : List.Pairwise entryPathLt l₂) : l₁ = l₂ := by
  haveI : IsAntisymm FileEntry entryPathLt := ⟨fun a _ hab hba =>
    absurd (entryPathLt_trans hab hba) (entryPathLt_irrefl a)⟩
  exact List.eq_of_perm_of_sorted hp h₁ h₂

theorem addAll_nil (P : FileIdPolicy) (m : SourceFilesMap) : addAll P [] m = m := rfl

theorem addAll_cons (P : FileIdPolicy) (pc : String × List Nat)
    (rest : List (String × List Nat)) (m : SourceFilesMap) :
    addAll P (pc :: rest) m = addAll P rest (m.add_file P pc.1 pc.2) := rfl

theorem add_file_length_le (P : FileIdPolicy) (m : SourceFilesMap) (p : String)
    (c : List Nat) (h : m.files.length ≤ P.MAX_FILES) :
    (m.add_file P p c).files.length ≤ P.MAX_FILES := by
  unfold SourceFilesMap.add_file
  by_cases hlt : m.files.length < P.MAX_FILES
  · rw [if_pos hlt]
    simp only [List.length_append, List.length_cons, List.length_nil]
    omega
  · rw [if_neg hlt]
    exact h

theorem addAll_length_le (P : FileIdPolicy) : ∀ (pairs : List (String × List Nat))
    (m : SourceFilesMap), m.files.length ≤ P.MAX_FILES →
    (addAll P pairs m).files.length ≤ P.MAX_FILES
  | [], _, h => h
  | pc :: rest, m, h => by
    rw [addAll_cons]
    exact addAll_length_le P rest _ (add_file_length_le P m pc.1 pc.2 h)

theorem addAll_length_min (P : FileIdPolicy) : ∀ (pairs : List (String × List Nat))
    (m : SourceFilesMap), m.files.length ≤ P.MAX_FILES →
    (addAll P pairs m).files.length = min (m.files.length + pairs.length) P.MAX_FILES
  | [], m, h => by
    rw [addAll_nil]
    simp only [List.length_nil]
    omega
  | pc :: rest, m, h => by
    rw [addAll_cons]
    by_cases hlt : m.files.length < P.MAX_FILES
    · have hadd : (m.add_file P pc.1 pc.2).files = m.files ++ [{ path := pc.1, content := pc.2 }] := by
        unfold SourceFilesMap.add_file
        rw [if_pos hlt]
      have hlen : (m.add_file P pc.1 pc.2).files.length = m.files.length + 1 := by
        rw [hadd]
        simp
      rw [addAll_length_min P rest _ (by omega), hlen]
      simp only [List.length_cons]
      omega
    · have hadd : m.add_file P pc.1 pc.2 = m := by
        unfold SourceFilesMap.add_file
        rw [if_neg hlt]
      rw [hadd, addAll_length_min P rest m h]
      simp only [List.length_cons]
      omega

theorem addAll_files (P : FileIdPolicy) : ∀ (pairs : List (String × List Nat))
    (m : SourceFilesMap), m.files.length + pairs.length ≤ P.MAX_FILES →
    (addAll P pairs m).files = m.files ++ entriesOf pairs
  | [], m, _ => by
    rw [addAll_nil]
    simp [entriesOf]
  | pc :: rest, m, h => by
    rw [addAll_cons]
    have hlt : m.files.length < P.MAX_FILES := by
      simp only [List.length_cons] at h
      omega
    have hadd : (m.add_file P pc.1 pc.2).files = m.files ++ [{ path := pc.1, content := pc.2 }] := by
      unfold SourceFilesMap.add_file
      rw [if_pos hlt]
    rw [addAll_files P rest _ (by rw [hadd]; simp only [List.length_append,
      List.length_cons, List.length_nil, List.length_cons] at h ⊢; omega)]
    rw [hadd]
    simp [entriesOf, List.append_assoc]

theorem entriesOf_map_path (pairs : List (String × List Nat)) :
    (entriesOf pairs).map FileEntry.path = pairs.map Prod.fst := by
  simp only [entriesOf, List.map_map]
  rfl

theorem entriesOf_length (pairs : List (String × List Nat)) :
    (entriesOf pairs).length = pairs.length := by
  simp [entriesOf]

theorem finalize_eq (P : FileIdPolicy) (m : SourceFilesMap)
    (hcap : (dedupByPath (List.insertionSort entryLe m.files)).length ≤ P.MAX_FILES) :
    m.finalize P = Except.ok { m with
      files := dedupByPath (List.insertionSort entryLe m.files),
      path_to_id := pairsOf (dedupByPath (List.insertionSort entryLe m.files)) 0,
      line_offsets := cloListOf (dedupByPath (List.insertionSort entryLe m.files)) 0 } := by
  have h0 : 0 + (dedupByPath (List.insertionSort entryLe m.files)).length ≤ P.MAX_FILES := by
    omega
  simp only [SourceFilesMap.finalize]
  rw [if_neg (show ¬ (dedupByPath (List.insertionSort entryLe m.files)).length > P.MAX_FILES
    by omega)]
  rw [buildPathToId_eq P _ 0 h0]
  simp only [restoreFromBuffer_flatten]
  rw [buildLineOffsets_eq P _ 0 h0]

theorem countP_lt_of_pairwise : ∀ (l : List FileEntry), List.Pairwise entryPathLt l →
    ∀ i (h : i < l.length),
    l.countP (fun e => pathLtB e.path (l.get ⟨i, h⟩).path) = i
  | [], _, i, h => by simp at h
  | a :: rest, hp, 0, h => by
    show (a :: rest).countP (fun e => pathLtB e.path a.path) = 0
    rw [List.countP_cons]
    have hz : rest.countP (fun e => pathLtB e.path a.path) = 0 := by
      rw [List.countP_eq_zero]
      intro e he
      have hae : entryPathLt a e := (List.pairwise_cons.mp hp).1 e he
      simp [pathLtB_asymm hae]
    rw [hz]
    simp [pathLtB_irrefl]
  | a :: rest, hp, i + 1, h => by
    have hi : i < rest.length := by
      simp only [List.length_cons] at h
      omega
    show (a :: rest).countP (fun e => pathLtB e.path ((rest.get ⟨i, hi⟩).path)) = i + 1
    rw [List.countP_cons]
    have ha : entryPathLt a (rest.get ⟨i, hi⟩) :=
      (List.pairwise_cons.mp hp).1 _ (List.get_mem rest i hi)
    rw [countP_lt_of_pairwise rest (List.pairwise_cons.mp hp).2 i hi]
    simp
    exact ha

theorem u64_sub_one_succ (i : Nat) (h : i < 2 ^ 64) : u64_sub_one (i + 1) = i := by
  unfold u64_sub_one
  omega

theorem u64_sub_one_zero : u64_sub_one 0 = 2 ^ 64 - 1 := by
  unfold u64_sub_one
  omega

theorem pathLtB_ne {a b : String} (h : pathLtB a b = true) : a ≠ b := by
  intro heq
  rw [heq, pathLtB_irrefl] at h
  simp at h

theorem lookup_none {β : Type} : ∀ (l : List (String × β)) (p : String),
    (∀ q ∈ l, q.1 ≠ p) → l.lookup p = none
  | [], _, _ => rfl
  | (k, v) :: rest, p, h => by
    simp only [List.lookup]
    have hne : (p == k) = false := beq_eq_false_iff_ne.mpr
      (fun hp => h (k, v) (List.mem_cons_self _ _) hp.symm)
    rw [hne]
    exact lookup_none rest p fun q hq => h q (List.mem_cons_of_mem _ hq)

theorem sfm_ext {m₁ m₂ : SourceFilesMap} (h1 : m₁.files = m₂.files)
    (h2 : m₁.path_to_id = m₂.path_to_id) (h3 : m₁.line_offsets = m₂.line_offsets)
    (h4 : m₁.avg_file_size = m₂.avg_file_size)
    (h5 : m₁.expected_files = m₂.expected_files) : m₁ = m₂ := by
  cases m₁
  cases m₂
  simp_all

theorem add_file_avg (P : FileIdPolicy) (m : SourceFilesMap) (p : String) (c : List Nat) :
    (m.add_file P p c).avg_file_size = m.avg_file_size ∧
    (m.add_file P p c).expected_files = m.expected_files := by
  unfold SourceFilesMap.add_file
  split
  · exact ⟨rfl, rfl⟩
  · exact ⟨rfl, rfl⟩

theorem addAll_avg (P : FileIdPolicy) : ∀ (pairs : List (String × List Nat))
    (m : SourceFilesMap),
    (addAll P pairs m).avg_file_size = m.avg_file_size ∧
    (addAll P pairs m).expected_files = m.expected_files
  | [], _ => ⟨rfl, rfl⟩
  | pc :: rest, m => by
    rw [addAll_cons]
    have h1 := add_file_avg P m pc.1 pc.2
    have h2 := addAll_avg P rest (m.add_file P pc.1 pc.2)
    exact ⟨h2.1.trans h1.1, h2.2.trans h1.2⟩

theorem finalize_addAll (P : FileIdPolicy) (pairs : List (String × List Nat))
    (hcap : pairs.length ≤ P.MAX_FILES) :
    ∃ m' : SourceFilesMap,
      (addAll P pairs SourceFilesMap.new).finalize P = Except.ok m' ∧
      m'.files = dedupByPath (List.insertionSort entryLe (entriesOf pairs)) ∧
      m'.path_to_id = pairsOf m'.files 0 ∧
      m'.line_offsets = cloListOf m'.files 0 ∧
      m'.avg_file_size = 2048 ∧ m'.expected_files = 100 := by
  have hE : (addAll P pairs SourceFilesMap.new).files = entriesOf pairs := by
    have h0 : SourceFilesMap.new.files.length + pairs.length ≤ P.MAX_FILES := by
      show 0 + pairs.length ≤ P.MAX_FILES
      omega
    have h := addAll_files P pairs SourceFilesMap.new h0
    simpa [SourceFilesMap.new] using h
  have hlen : (dedupByPath (List.insertionSort entryLe (entriesOf pairs))).length
      ≤ P.MAX_FILES := by
    calc (dedupByPath (List.insertionSort entryLe (entriesOf pairs))).length
        ≤ (List.insertionSort entryLe (entriesOf pairs)).length := dedupByPath_length _
      _ = (entriesOf pairs).length := (List.perm_insertionSort entryLe _).length_eq
      _ = pairs.length := entriesOf_length pairs
      _ ≤ P.MAX_FILES := hcap
  have hfin := finalize_eq P (addAll P pairs SourceFilesMap.new) (by rw [hE]; exact hlen)
  rw [hE] at hfin
  refine ⟨_, hfin, rfl, rfl, rfl, ?_, ?_⟩
  · exact (addAll_avg P pairs SourceFilesMap.new).1
  · exact (addAll_avg P pairs SourceFilesMap.new).2

theorem finalize_addAll_nodup (P : FileIdPolicy) (pairs : List (String × List Nat))
    (hnd : (pairs.map Prod.fst).Nodup) (hcap : pairs.length ≤ P.MAX_FILES) :
    ∃ m' : SourceFilesMap,
      (addAll P pairs SourceFilesMap.new).finalize P = Except.ok m' ∧
      m'.files.Perm (entriesOf pairs) ∧
      List.Pairwise entryLe m'.files ∧
      (m'.files.map FileEntry.path).Nodup ∧
      m'.path_to_id = pairsOf m'.files 0 ∧
      m'.line_offsets = cloListOf m'.files 0 ∧
      m'.avg_file_size = 2048 ∧ m'.expected_files = 100 ∧
      m'.files.length = pairs.length := by
  obtain ⟨m', hfin, hfiles, hp2i, hlo, havg, hexp⟩ := finalize_addAll P pairs hcap
  have hsorted0 : List.Pairwise entryLe (List.insertionSort entryLe (entriesOf pairs)) :=
    sorted_sortEntries _
  have hpermS : (List.insertionSort entryLe (entriesOf pairs)).Perm (entriesOf pairs) :=
    List.perm_insertionSort entryLe _
  have hndS : ((List.insertionSort entryLe (entriesOf pairs)).map FileEntry.path).Nodup := by
    rw [(hpermS.map FileEntry.path).nodup_iff, entriesOf_map_path]
    exact hnd
  have hdd : dedupByPath (List.insertionSort entryLe (entriesOf pairs)) =
      List.insertionSort entryLe (entriesOf pairs) := dedupByPath_eq_self _ hndS
  rw [hdd] at hfiles
  refine ⟨m', hfin, ?_, ?_, ?_, hp2i, hlo, havg, hexp, ?_⟩
  · rw [hfiles]; exact hpermS
  · rw [hfiles]; exact hsorted0
  · rw [hfiles]; exact hndS
  · rw [hfiles, hpermS.length_eq, entriesOf_length]

theorem finalize_addAll_ok (P : FileIdPolicy) (pairs : List (String × List Nat)) :
    exceptOk ((addAll P pairs SourceFilesMap.new).finalize P) = true := by
  have hlen : (addAll P pairs SourceFilesMap.new).files.length ≤ P.MAX_FILES :=
    addAll_length_le P pairs SourceFilesMap.new (Nat.zero_le _)
  have hdd : (dedupByPath (List.insertionSort entryLe
      (addAll P pairs SourceFilesMap.new).files)).length ≤ P.MAX_FILES := by
    calc (dedupByPath (List.insertionSort entryLe
        (addAll P pairs SourceFilesMap.new).files)).length
        ≤ (List.insertionSort entryLe (addAll P pairs SourceFilesMap.new).files).length :=
        dedupByPath_length _
      _ = (addAll P pairs SourceFilesMap.new).files.length :=
        (List.perm_insertionSort entryLe _).length_eq
      _ ≤ P.MAX_FILES := hlen
  rw [finalize_eq P _ hdd]
  rfl

theorem finalized_get {m' : SourceFilesMap}
    (hp2i : m'.path_to_id = pairsOf m'.files 0)
    (hnd : (m'.files.map FileEntry.path).Nodup)
    (i : Nat) (hi : i < m'.files.length) (hlt : i < 2 ^ 64) :
    m'.get_id ((m'.files.get ⟨i, hi⟩).path) = some (i + 1) ∧
    m'.get_path (i + 1) = some ((m'.files.get ⟨i, hi⟩).path) ∧
    m'.get_content (i + 1) = some ((m'.files.get ⟨i, hi⟩).content) := by
  refine ⟨?_, ?_, ?_⟩
  · show m'.path_to_id.lookup _ = _
    rw [hp2i]
    have h := pairsOf_lookup_get m'.files 0 hnd i hi
    simpa using h
  · show (m'.files.get? (u64_sub_one (i + 1))).map FileEntry.path = _
    rw [u64_sub_one_succ i hlt, List.get?_eq_get hi]
    rfl
  · show (m'.files.get? (u64_sub_one (i + 1))).map FileEntry.content = _
    rw [u64_sub_one_succ i hlt, List.get?_eq_get hi]
    rfl

theorem abs_source_file_id_u8 {fid sl sc el ec : Nat} (h1 : fid < 2 ^ 8) (h2 : sl < 2 ^ 16)
    (h3 : sc < 2 ^ 8) (h4 : el < 2 ^ 16) (h5 : ec < 2 ^ 8) :
    AbsolutePosition.source_file_id u8Policy (AbsolutePosition.new u8Policy fid sl sc el ec) =
      some fid := by
  show some (((AbsolutePosition.new u8Policy fid sl sc el ec) &&& u8Policy.FILE_ID_MASK) >>>
    u8Policy.FILE_ID_SHIFT % 2 ^ 16) = some fid
  rw [file_id_val_u8, abs_new_u8_arith h1 h2 h3 h4 h5]
  congr 1
  omega

theorem abs_source_file_id_u16 {fid sl sc el ec : Nat} (h1 : fid < 2 ^ 16) (h2 : sl < 2 ^ 16)
    (h3 : sc < 2 ^ 8) (h4 : el < 2 ^ 16) (h5 : ec < 2 ^ 8) :
    AbsolutePosition.source_file_id u16Policy (AbsolutePosition.new u16Policy fid sl sc el ec) =
      some fid := by
  show some (((AbsolutePosition.new u16Policy fid sl sc el ec) &&& u16Policy.FILE_ID_MASK) >>>
    u16Policy.FILE_ID_SHIFT % 2 ^ 16) = some fid
  rw [file_id_val_u16, abs_new_u16_arith h1 h2 h3 h4 h5]
  congr 1
  omega

/-- C2: round-trip of the position codec.  For all in-range field values, the
accessors of `AbsolutePosition::new` (under both the `u8` and the `u16` ID
policy, including `file_id`) and of `RelativePosition::new` return exactly the
encoded values. -/
theorem claim_C2 : ∀ sl sc el ec : Nat, sl < 2 ^ 16 → sc < 2 ^ 8 → el < 2 ^ 16 → ec < 2 ^ 8 →
    (∀ fid, fid < 2 ^ 8 →
      AbsolutePosition.start_line u8Policy (AbsolutePosition.new u8Policy fid sl sc el ec) = sl ∧
      AbsolutePosition.start_column u8Policy (AbsolutePosition.new u8Policy fid sl sc el ec) = sc ∧
      AbsolutePosition.end_line u8Policy (AbsolutePosition.new u8Policy fid sl sc el ec) = el ∧
      AbsolutePosition.end_column u8Policy (AbsolutePosition.new u8Policy fid sl sc el ec) = ec ∧
      AbsolutePosition.file_id u8Policy (AbsolutePosition.new u8Policy fid sl sc el ec) = some fid) ∧
    (∀ fid, fid < 2 ^ 16 →
      AbsolutePosition.start_line u16Policy (AbsolutePosition.new u16Policy fid sl sc el ec) = sl ∧
      AbsolutePosition.start_column u16Policy (AbsolutePosition.new u16Policy fid sl sc el ec) = sc ∧
      AbsolutePosition.end_line u16Policy (AbsolutePosition.new u16Policy fid sl sc el ec) = el ∧
      AbsolutePosition.end_column u16Policy (AbsolutePosition.new u16Policy fid sl sc el ec) = ec ∧
      AbsolutePosition.file_id u16Policy (AbsolutePosition.new u16Policy fid sl sc el ec) = some fid) ∧
    (RelativePosition.start_line (RelativePosition.new sl sc el ec) = sl ∧
      RelativePosition.start_column (RelativePosition.new sl sc el ec) = sc ∧
      RelativePosition.end_line (RelativePosition.new sl sc el ec) = el ∧
      RelativePosition.end_column (RelativePosition.new sl sc el ec) = ec) := by
  intro sl sc el ec h2 h3 h4 h5
  refine ⟨fun fid h1 => ⟨abs_start_line_u8 h1 h2 h3 h4 h5, abs_start_column_u8 h1 h2 h3 h4 h5,
      abs_end_line_u8 h1 h2 h3 h4 h5, abs_end_column_u8 h1 h2 h3 h4 h5,
      abs_file_id_u8_new h1 h2 h3 h4 h5⟩,
    fun fid h1 => ⟨abs_start_line_u16 h1 h2 h3 h4 h5, abs_start_column_u16 h1 h2 h3 h4 h5,
      abs_end_line_u16 h1 h2 h3 h4 h5, abs_end_column_u16 h1 h2 h3 h4 h5,
      abs_file_id_u16_new h1 h2 h3 h4 h5⟩,
    rel_start_line_new h2 h3 h4 h5, rel_start_column_new h2 h3 h4 h5,
    rel_end_line_new h2 h3 h4 h5, rel_end_column_new h2 h3 h4 h5⟩

/-- Witness for C2 at the concrete span `(10, 5, 12, 20)` with file ID `7`. -/
theorem claim_C2_witness :
    AbsolutePosition.start_line u8Policy (AbsolutePosition.new u8Policy 7 10 5 12 20) = 10 ∧
    AbsolutePosition.file_id u8Policy (AbsolutePosition.new u8Policy 7 10 5 12 20) = some 7 ∧
    AbsolutePosition.end_line u16Policy (AbsolutePosition.new u16Policy 300 10 5 12 20) = 12 ∧
    RelativePosition.end_column (RelativePosition.new 10 5 12 20) = 20 := by
  obtain ⟨hu8, hu16, hrel⟩ :=
    claim_C2 10 5 12 20 (by norm_num) (by norm_num) (by norm_num) (by norm_num)
  exact ⟨(hu8 7 (by norm_num)).1, (hu8 7 (by norm_num)).2.2.2.2,
    (hu16 300 (by norm_num)).2.2.1, hrel.2.2.2⟩

/-- C8: an Absolute Position and a Relative Position built from the same four
numeric fields agree on all four accessors, while `source_file_id` is `Some`
(the encoded ID) for the absolute variant and `None` for the relative one. -/
theorem claim_C8 : ∀ sl sc el ec : Nat, sl < 2 ^ 16 → sc < 2 ^ 8 → el < 2 ^ 16 → ec < 2 ^ 8 →
    (∀ fid, fid < 2 ^ 8 →
      AbsolutePosition.start_line u8Policy (AbsolutePosition.new u8Policy fid sl sc el ec) =
        RelativePosition.start_line (RelativePosition.new sl sc el ec) ∧
      AbsolutePosition.start_column u8Policy (AbsolutePosition.new u8Policy fid sl sc el ec) =
        RelativePosition.start_column (RelativePosition.new sl sc el ec) ∧
      AbsolutePosition.end_line u8Policy (AbsolutePosition.new u8Policy fid sl sc el ec) =
        RelativePosition.end_line (RelativePosition.new sl sc el ec) ∧
      AbsolutePosition.end_column u8Policy (AbsolutePosition.new u8Policy fid sl sc el ec) =
        RelativePosition.end_column (RelativePosition.new sl sc el ec) ∧
      AbsolutePosition.source_file_id u8Policy (AbsolutePosition.new u8Policy fid sl sc el ec) =
        some fid) ∧
    (∀ fid, fid < 2 ^ 16 →
      AbsolutePosition.start_line u16Policy (AbsolutePosition.new u16Policy fid sl sc el ec) =
        RelativePosition.start_line (RelativePosition.new sl sc el ec) ∧
      AbsolutePosition.start_column u16Policy (AbsolutePosition.new u16Policy fid sl sc el ec) =
        RelativePosition.start_column (RelativePosition.new sl sc el ec) ∧
      AbsolutePosition.end_line u16Policy (AbsolutePosition.new u16Policy fid sl sc el ec) =
        RelativePosition.end_line (RelativePosition.new sl sc el ec) ∧
      AbsolutePosition.end_column u16Policy (AbsolutePosition.new u16Policy fid sl sc el ec) =
        RelativePosition.end_column (RelativePosition.new sl sc el ec) ∧
      AbsolutePosition.source_file_id u16Policy (AbsolutePosition.new u16Policy fid sl sc el ec) =
        some fid) ∧
    (∀ w : Nat, RelativePosition.source_file_id w = none) := by
  intro sl sc el ec h2 h3 h4 h5
  refine ⟨fun fid h1 => ?_, fun fid h1 => ?_, fun _ => rfl⟩
  · rw [rel_start_line_new h2 h3 h4 h5, rel_start_column_new h2 h3 h4 h5,
      rel_end_line_new h2 h3 h4 h5, rel_end_column_new h2 h3 h4 h5]
    exact ⟨abs_start_line_u8 h1 h2 h3 h4 h5, abs_start_column_u8 h1 h2 h3 h4 h5,
      abs_end_line_u8 h1 h2 h3 h4 h5, abs_end_column_u8 h1 h2 h3 h4 h5,
      abs_source_file_id_u8 h1 h2 h3 h4 h5⟩
  · rw [rel_start_line_new h2 h3 h4 h5, rel_start_column_new h2 h3 h4 h5,
      rel_end_line_new h2 h3 h4 h5, rel_end_column_new h2 h3 h4 h5]
    exact ⟨abs_start_line_u16 h1 h2 h3 h4 h5, abs_start_column_u16 h1 h2 h3 h4 h5,
      abs_end_line_u16 h1 h2 h3 h4 h5, abs_end_column_u16 h1 h2 h3 h4 h5,
      abs_source_file_id_u16 h1 h2 h3 h4 h5⟩

/-- Witness for C8 at the concrete span `(10, 5, 12, 20)` with file ID `1`. -/
theorem claim_C8_witness :
    AbsolutePosition.start_line u8Policy (AbsolutePosition.new u8Policy 1 10 5 12 20) =
      RelativePosition.start_line (RelativePosition.new 10 5 12 20) ∧
    AbsolutePosition.source_file_id u8Policy (AbsolutePosition.new u8Policy 1 10 5 12 20) =
      some 1 ∧
    RelativePosition.source_file_id (RelativePosition.new 10 5 12 20) = none := by
  obtain ⟨hu8, _, hrel⟩ :=
    claim_C8 10 5 12 20 (by norm_num) (by norm_num) (by norm_num) (by norm_num)
  exact ⟨(hu8 1 (by norm_num)).1, (hu8 1 (by norm_num)).2.2.2.2, hrel _⟩

/-- C9: for every 64-bit word (indeed every `Nat`), the masked and shifted
file-id bits fit the ID type under both policies, so the `file_id` accessor's
panic branch is unreachable; and for encoded positions `file_id` returns the
encoded ID. -/
theorem claim_C9 :
    (∀ w : Nat,
      (w &&& u8Policy.FILE_ID_MASK) >>> u8Policy.FILE_ID_SHIFT ≤ u8Policy.MAX_FILES ∧
      (w &&& u16Policy.FILE_ID_MASK) >>> u16Policy.FILE_ID_SHIFT ≤ u16Policy.MAX_FILES ∧
      (AbsolutePosition.file_id u8Policy w).isSome = true ∧
      (AbsolutePosition.file_id u16Policy w).isSome = true) ∧
    (∀ fid sl sc el ec : Nat, fid < 2 ^ 8 → sl < 2 ^ 16 → sc < 2 ^ 8 → el < 2 ^ 16 →
      ec < 2 ^ 8 →
      AbsolutePosition.file_id u8Policy (AbsolutePosition.new u8Policy fid sl sc el ec) =
        some fid) ∧
    (∀ fid sl sc el ec : Nat, fid < 2 ^ 16 → sl < 2 ^ 16 → sc < 2 ^ 8 → el < 2 ^ 16 →
      ec < 2 ^ 8 →
      AbsolutePosition.file_id u16Policy (AbsolutePosition.new u16Policy fid sl sc el ec) =
        some fid) := by
  refine ⟨fun w => ⟨?_, ?_, ?_, ?_⟩,
    fun fid sl sc el ec h1 h2 h3 h4 h5 => abs_file_id_u8_new h1 h2 h3 h4 h5,
    fun fid sl sc el ec h1 h2 h3 h4 h5 => abs_file_id_u16_new h1 h2 h3 h4 h5⟩
  · rw [file_id_val_u8]
    show _ ≤ 255
    have := Nat.mod_lt (w / 2 ^ 56) (show 0 < 2 ^ 8 by norm_num)
    omega
  · rw [file_id_val_u16]
    show _ ≤ 65535
    have := Nat.mod_lt (w / 2 ^ 48) (show 0 < 2 ^ 16 by norm_num)
    omega
  · rw [abs_file_id_u8_some]
    rfl
  · rw [abs_file_id_u16_some]
    rfl

/-- Witness for C9 at a corrupted word (all bits set) and at encoded positions. -/
theorem claim_C9_witness :
    (AbsolutePosition.file_id u8Policy (2 ^ 64 - 1)).isSome = true ∧
    AbsolutePosition.file_id u8Policy (AbsolutePosition.new u8Policy 7 10 5 12 20) = some 7 ∧
    AbsolutePosition.file_id u16Policy (AbsolutePosition.new u16Policy 300 10 5 12 20) =
      some 300 := by
  refine ⟨(claim_C9.1 (2 ^ 64 - 1)).2.2.1, ?_, ?_⟩
  · exact claim_C9.2.1 7 10 5 12 20 (by norm_num) (by norm_num) (by norm_num) (by norm_num)
      (by norm_num)
  · exact claim_C9.2.2 300 10 5 12 20 (by norm_num) (by norm_num) (by norm_num) (by norm_num)
      (by norm_num)

theorem ascChain_pairwise : ∀ l : List String, ascChain l = true →
    List.Pairwise (fun a b => pathLtB a b = true) l
  | [], _ => List.Pairwise.nil
  | [_], _ => by simp
  | a :: b :: rest, h => by
    simp only [ascChain, Bool.and_eq_true] at h
    have hrest := ascChain_pairwise (b :: rest) h.2
    obtain ⟨hb, _⟩ := List.pairwise_cons.mp hrest
    rw [List.pairwise_cons]
    refine ⟨?_, hrest⟩
    intro y hy
    rcases List.mem_cons.mp hy with rfl | hy2
    · exact h.1
    · exact pathLtB_trans h.1 (hb y hy2)

theorem ascChain_nodup (l : List String) (h : ascChain l = true) : l.Nodup :=
  (ascChain_pairwise l h).imp fun hlt => pathLtB_ne hlt

set_option maxRecDepth 8000 in
/-- C1 counterexample: 256 distinct paths are registered, yet `finalize`
returns `Ok` (not the claimed `CapacityExceeded` error), because `add_file`
already dropped the 256th entry. -/
theorem claim_C1_counterexample :
    pairs256.length = 256 ∧ (pairs256.map Prod.fst).Nodup ∧
    exceptOk ((addAll u8Policy pairs256 SourceFilesMap.new).finalize u8Policy) = true := by
  refine ⟨by simp [pairs256], ?_, finalize_addAll_ok u8Policy pairs256⟩
  exact ascChain_nodup (pairs256.map Prod.fst) (by decide)

/-- C1 (amended): under the 8-bit ID policy `add_file` silently drops adds
beyond 255 entries, so `finalize` never sees more than 255 files and always
succeeds for a registry populated through `add_file`: with 256 distinct paths
added the registry holds the first 255 entries and `finalize` returns `Ok`,
and with exactly 255 distinct paths `finalize` returns `Ok` as well. -/
theorem claim_C1 :
    (∀ pairs : List (String × List Nat),
      exceptOk ((addAll u8Policy pairs SourceFilesMap.new).finalize u8Policy) = true) ∧
    pairs256.length = 256 ∧
    (addAll u8Policy pairs256 SourceFilesMap.new).files.length = 255 ∧
    exceptOk ((addAll u8Policy pairs256 SourceFilesMap.new).finalize u8Policy) = true ∧
    pairs255.length = 255 ∧
    exceptOk ((addAll u8Policy pairs255 SourceFilesMap.new).finalize u8Policy) = true := by
  have hl256 : pairs256.length = 256 := by simp [pairs256]
  have hl255 : pairs255.length = 255 := by simp [pairs255]
  refine ⟨fun pairs => finalize_addAll_ok u8Policy pairs, hl256, ?_,
    finalize_addAll_ok u8Policy pairs256, hl255, finalize_addAll_ok u8Policy pairs255⟩
  have hmin := addAll_length_min u8Policy pairs256 SourceFilesMap.new (Nat.zero_le _)
  rw [hl256] at hmin
  rw [hmin]
  decide

/-- C4: the line index.  `get_line_range` is `none` exactly when the 1-indexed
line number is `0` or exceeds the number of recorded line starts; otherwise it
returns the recorded start offset together with either one byte before the next
line's start (non-last lines) or the total content length (last line).  The
offset table always starts with entry `0`, and the spec's concrete example
holds. -/
theorem claim_C4 :
    (∀ (content : List Nat) (line : Nat),
      ((CompactLineOffsets.compute content).get_line_range line = none ↔
        line = 0 ∨ line > (CompactLineOffsets.compute content).offsets.length) ∧
      (line ≠ 0 → line ≤ (CompactLineOffsets.compute content).offsets.length →
        (CompactLineOffsets.compute content).get_line_range line =
          some ((CompactLineOffsets.compute content).offsets.getD (line - 1) 0,
            if line < (CompactLineOffsets.compute content).offsets.length then
              (CompactLineOffsets.compute content).offsets.getD line 0 - 1
            else content.length)) ∧
      (CompactLineOffsets.compute content).offsets.getD 0 1 = 0 ∧
      1 ≤ (CompactLineOffsets.compute content).offsets.length) ∧
    (CompactLineOffsets.compute lineContent).get_line_range 1 = some (0, 5) ∧
    (CompactLineOffsets.compute lineContent).get_line_range 2 = some (6, 11) ∧
    (CompactLineOffsets.compute lineContent).get_line_range 3 = some (12, 17) ∧
    (CompactLineOffsets.compute lineContent).get_line_range 4 = none ∧
    (CompactLineOffsets.compute ([] : List Nat)).offsets = [0] := by
  refine ⟨fun content line => ⟨?_, ?_, rfl, ?_⟩, by decide, by decide, by decide, by decide, rfl⟩
  · unfold CompactLineOffsets.get_line_range
    constructor
    · intro h
      by_cases hc : line = 0 ∨ line > (CompactLineOffsets.compute content).offsets.length
      · exact hc
      · rw [if_neg hc] at h
        exact absurd h (by simp)
    · intro hc
      rw [if_pos hc]
  · intro h0 hle
    unfold CompactLineOffsets.get_line_range
    rw [if_neg (show ¬ (line = 0 ∨
      line > (CompactLineOffsets.compute content).offsets.length) by push_neg; omega)]
    rfl
  · show 1 ≤ (newlineOffsets content 0).length + 1
    omega

/-- Witness for C4: line 2 of the spec's three-line content. -/
theorem claim_C4_witness :
    (CompactLineOffsets.compute lineContent).get_line_range 2 =
      some ((CompactLineOffsets.compute lineContent).offsets.getD (2 - 1) 0,
        if 2 < (CompactLineOffsets.compute lineContent).offsets.length then
          (CompactLineOffsets.compute lineContent).offsets.getD 2 0 - 1
        else lineContent.length) :=
  (claim_C4.1 lineContent 2).2.1 (by decide) (by decide)

/-- C5: lookup totality.  `get_content` and `get_path` return `none` for
`id = 0` (the `u64` subtraction wraps to an out-of-range index) and for any
`id` beyond the number of files, and `get_id` returns `none` for a path that
was never keyed; none of the lookups can fail in any other way. -/
theorem claim_C5 : ∀ (m : SourceFilesMap) (id : Nat) (p : String),
    m.files.length < 2 ^ 64 - 1 → id < 2 ^ 64 →
    ((id = 0 ∨ id > m.files.length) → m.get_content id = none ∧ m.get_path id = none) ∧
    ((∀ q ∈ m.path_to_id, q.1 ≠ p) → m.get_id p = none) := by
  intro m id p hm hid
  constructor
  · intro hcase
    have hidx : m.files.length ≤ u64_sub_one id := by
      unfold u64_sub_one
      rcases hcase with rfl | hgt
      · omega
      · omega
    have hnone : m.files.get? (u64_sub_one id) = none := List.get?_eq_none.mpr hidx
    constructor
    · show (m.files.get? (u64_sub_one id)).map FileEntry.content = none
      rw [hnone]
      rfl
    · show (m.files.get? (u64_sub_one id)).map FileEntry.path = none
      rw [hnone]
      rfl
  · intro hnk
    exact lookup_none m.path_to_id p hnk

/-- Witness for C5: the empty registry with `id = 0` and an unknown path. -/
theorem claim_C5_witness :
    SourceFilesMap.new.get_content 0 = none ∧ SourceFilesMap.new.get_path 0 = none ∧
    SourceFilesMap.new.get_id "missing.rs" = none := by
  have h := claim_C5 SourceFilesMap.new 0 "missing.rs" (by decide) (by decide)
  refine ⟨(h.1 (Or.inl rfl)).1, (h.1 (Or.inl rfl)).2, h.2 ?_⟩
  intro q hq
  simp [SourceFilesMap.new] at hq

/-- C6: deduplication.  After a successful `finalize`, paths are pairwise
distinct, the surviving paths are exactly the added paths, `len()` is the
number of distinct paths added, and the surviving entry for a path is one of
its added contents with minimal content length (the first occurrence in the
sorted order, whose ties are broken by content length).  Concretely, adding
`dup.rs` twice with contents of different lengths keeps the shorter content in
either insertion order. -/
theorem claim_C6 : (∀ (P : FileIdPolicy) (pairs : List (String × List Nat)),
      pairs.length ≤ P.MAX_FILES →
      ∃ m', (addAll P pairs SourceFilesMap.new).finalize P = Except.ok m' ∧
        (m'.files.map FileEntry.path).Nodup ∧
        (∀ q : String, q ∈ m'.files.map FileEntry.path ↔ q ∈ pairs.map Prod.fst) ∧
        m'.len = (pairs.map Prod.fst).dedup.length ∧
        (∀ e ∈ m'.files, (e.path, e.content) ∈ pairs ∧
          ∀ c' : List Nat, (e.path, c') ∈ pairs → e.content.length ≤ c'.length)) ∧
    regDup1.len = 1 ∧ regDup1.get_content 1 = some [9] ∧ regDup1.get_id "dup.rs" = some 1 ∧
    regDup2.len = 1 ∧ regDup2.get_content 1 = some [9] := by
  refine ⟨?_, by decide, by decide, by decide, by decide, by decide⟩
  intro P pairs hcap
  obtain ⟨m', hfin, hfiles, hp2i, hlo, havg, hexp⟩ := finalize_addAll P pairs hcap
  have hsorted : List.Pairwise entryLe (List.insertionSort entryLe (entriesOf pairs)) :=
    sorted_sortEntries _
  have hperm : (List.insertionSort entryLe (entriesOf pairs)).Perm (entriesOf pairs) :=
    List.perm_insertionSort entryLe _
  have hnodup : ((dedupByPath (List.insertionSort entryLe (entriesOf pairs))).map
      FileEntry.path).Nodup := dedupByPath_nodup _ hsorted
  have hmem : ∀ q : String,
      q ∈ (dedupByPath (List.insertionSort entryLe (entriesOf pairs))).map FileEntry.path ↔
      q ∈ pairs.map Prod.fst := by
    intro q
    rw [dedupByPath_path_mem _ hsorted q, (hperm.map FileEntry.path).mem_iff,
      entriesOf_map_path]
  refine ⟨m', hfin, ?_, ?_, ?_, ?_⟩
  · rw [hfiles]
    exact hnodup
  · intro q
    rw [hfiles]
    exact hmem q
  · show m'.files.length = _
    rw [hfiles]
    have h2 : ((pairs.map Prod.fst).dedup).Nodup := List.nodup_dedup _
    have h3 : ∀ q, q ∈ (dedupByPath (List.insertionSort entryLe (entriesOf pairs))).map
        FileEntry.path ↔ q ∈ (pairs.map Prod.fst).dedup := by
      intro q
      rw [List.mem_dedup]
      exact hmem q
    have hperm2 : ((dedupByPath (List.insertionSort entryLe (entriesOf pairs))).map
        FileEntry.path).Perm ((pairs.map Prod.fst).dedup) :=
      (List.perm_ext_iff_of_nodup hnodup h2).mpr h3
    calc (dedupByPath (List.insertionSort entryLe (entriesOf pairs))).length
        = ((dedupByPath (List.insertionSort entryLe (entriesOf pairs))).map
            FileEntry.path).length := (List.length_map _ _).symm
      _ = ((pairs.map Prod.fst).dedup).length := hperm2.length_eq
  · intro e he
    rw [hfiles] at he
    have heS : e ∈ List.insertionSort entryLe (entriesOf pairs) := dedupByPath_subset _ e he
    have heE : e ∈ entriesOf pairs := hperm.subset heS
    constructor
    · rcases List.mem_map.mp heE with ⟨pc, hpc, hpce⟩
      have h1 : e.path = pc.1 := by rw [← hpce]
      have h2 : e.content = pc.2 := by rw [← hpce]
      rw [h1, h2]
      exact hpc
    · intro c' hc'
      have hc'E : ({ path := e.path, content := c' } : FileEntry) ∈ entriesOf pairs :=
        List.mem_map_of_mem _ hc'
      have hc'S : ({ path := e.path, content := c' } : FileEntry) ∈
          List.insertionSort entryLe (entriesOf pairs) := hperm.mem_iff.mpr hc'E
      exact dedupByPath_min _ hsorted e he { path := e.path, content := c' } hc'S rfl

/-- Witness for C6: `dup.rs` registered twice with different contents. -/
theorem claim_C6_witness :
    ∃ m', (addAll u8Policy [("dup.rs", [1, 2, 3]), ("dup.rs", [9])]
        SourceFilesMap.new).finalize u8Policy = Except.ok m' ∧
      (m'.files.map FileEntry.path).Nodup ∧
      (∀ q : String, q ∈ m'.files.map FileEntry.path ↔
        q ∈ [("dup.rs", [1, 2, 3]), ("dup.rs", [9])].map Prod.fst) ∧
      m'.len = ([("dup.rs", [1, 2, 3]), ("dup.rs", [9])].map Prod.fst).dedup.length ∧
      (∀ e ∈ m'.files, (e.path, e.content) ∈ [("dup.rs", [1, 2, 3]), ("dup.rs", [9])] ∧
        ∀ c' : List Nat, (e.path, c') ∈ [("dup.rs", [1, 2, 3]), ("dup.rs", [9])] →
          e.content.length ≤ c'.length) :=
  claim_C6.1 u8Policy [("dup.rs", [1, 2, 3]), ("dup.rs", [9])] (by decide)

/-- C7: ID determinism.  For distinct paths within capacity, `finalize`
succeeds and assigns to each path the ID `1 + (number of added paths strictly
below it)`, i.e. IDs `1, 2, 3, …` in sorted path order; every assigned ID is
at least `1` (ID `0` is never assigned), and the result is independent of the
insertion order.  Concretely `{b.rs, a.rs}` gets `a.rs → 1`, `b.rs → 2` in
both insertion orders. -/
theorem claim_C7 : (∀ (P : FileIdPolicy) (pairs : List (String × List Nat)),
      (pairs.map Prod.fst).Nodup → pairs.length ≤ P.MAX_FILES →
      ∃ m', (addAll P pairs SourceFilesMap.new).finalize P = Except.ok m' ∧
        (∀ p ∈ pairs.map Prod.fst,
          m'.get_id p = some ((pairs.map Prod.fst).countP (fun q => pathLtB q p) + 1)) ∧
        (∀ p n, m'.get_id p = some n → 1 ≤ n) ∧
        (∀ pairs₂ : List (String × List Nat), pairs.Perm pairs₂ →
          (addAll P pairs₂ SourceFilesMap.new).finalize P = Except.ok m')) ∧
    regBA.get_id "a.rs" = some 1 ∧ regBA.get_id "b.rs" = some 2 ∧
    regAB.get_id "a.rs" = some 1 ∧ regAB.get_id "b.rs" = some 2 := by
  refine ⟨?_, by decide, by decide, by decide, by decide⟩
  intro P pairs hnd hcap
  obtain ⟨m', hfin, hperm, hsorted, hnodup, hp2i, hlo, havg, hexp, hlen⟩ :=
    finalize_addAll_nodup P pairs hnd hcap
  refine ⟨m', hfin, ?_, ?_, ?_⟩
  · intro p hp
    have hpS : p ∈ m'.files.map FileEntry.path := by
      rw [(hperm.map FileEntry.path).mem_iff, entriesOf_map_path]
      exact hp
    rcases List.mem_map.mp hpS with ⟨e, heS, rfl⟩
    rcases List.mem_iff_get.mp heS with ⟨⟨i, hi⟩, hget⟩
    have hgid : m'.get_id ((m'.files.get ⟨i, hi⟩).path) = some (i + 1) := by
      show m'.path_to_id.lookup _ = _
      rw [hp2i]
      have h := pairsOf_lookup_get m'.files 0 hnodup i hi
      simpa using h
    have hplt : List.Pairwise entryPathLt m'.files :=
      pairwise_lt_of_sorted_nodup _ hsorted hnodup
    have hcount := countP_lt_of_pairwise m'.files hplt i hi
    have hc2 : m'.files.countP (fun x => pathLtB x.path ((m'.files.get ⟨i, hi⟩).path)) =
        (pairs.map Prod.fst).countP (fun q => pathLtB q ((m'.files.get ⟨i, hi⟩).path)) := by
      rw [hperm.countP_eq]
      show List.countP _ (pairs.map fun pc => ({ path := pc.1, content := pc.2 } : FileEntry)) = _
      rw [List.countP_map, List.countP_map]
      rfl
    rw [hget] at hgid hcount hc2
    rw [hgid, ← hc2, hcount]
  · intro p n h
    have h2 : (pairsOf m'.files 0).lookup p = some n := by
      rw [← hp2i]
      exact h
    have := pairsOf_lookup_ge m'.files 0 p n h2
    omega
  · intro pairs₂ hpp
    have hnd₂ : (pairs₂.map Prod.fst).Nodup := ((hpp.map Prod.fst).nodup_iff).mp hnd
    have hcap₂ : pairs₂.length ≤ P.MAX_FILES := hpp.length_eq ▸ hcap
    obtain ⟨m₂, hfin₂, hperm₂, hsorted₂, hnodup₂, hp2i₂, hlo₂, havg₂, hexp₂, hlen₂⟩ :=
      finalize_addAll_nodup P pairs₂ hnd₂ hcap₂
    have hpermE : (entriesOf pairs).Perm (entriesOf pairs₂) := hpp.map _
    have hfeq : m₂.files = m'.files := by
      apply sorted_nodup_perm_eq
      · exact hperm₂.trans (hpermE.symm.trans hperm.symm)
      · exact pairwise_lt_of_sorted_nodup _ hsorted₂ hnodup₂
      · exact pairwise_lt_of_sorted_nodup _ hsorted hnodup
    have hme : m₂ = m' := sfm_ext hfeq (by rw [hp2i₂, hp2i, hfeq]) (by rw [hlo₂, hlo, hfeq])
      (havg₂.trans havg.symm) (hexp₂.trans hexp.symm)
    rw [← hme]
    exact hfin₂

/-- Witness for C7: the spec's `{b.rs, a.rs}` example. -/
theorem claim_C7_witness :
    ∃ m', (addAll u8Policy [("b.rs", [1]), ("a.rs", [2])] SourceFilesMap.new).finalize u8Policy =
        Except.ok m' ∧
      (∀ p ∈ [("b.rs", [1]), ("a.rs", [2])].map Prod.fst,
        m'.get_id p = some (([("b.rs", [1]), ("a.rs", [2])].map Prod.fst).countP
          (fun q => pathLtB q p) + 1)) ∧
      (∀ p n, m'.get_id p = some n → 1 ≤ n) ∧
      (∀ pairs₂ : List (String × List Nat), [("b.rs", [1]), ("a.rs", [2])].Perm pairs₂ →
        (addAll u8Policy pairs₂ SourceFilesMap.new).finalize u8Policy = Except.ok m') :=
  claim_C7.1 u8Policy [("b.rs", [1]), ("a.rs", [2])] (by decide) (by decide)

/-- C10: registry round-trip.  For pairwise-distinct paths within capacity,
`finalize` succeeds and every registered `(path, content)` pair is fully
recoverable: `get_id path` yields an ID under which `get_path` returns the
path and `get_content` returns exactly the registered bytes (consolidation
preserves every file's content unchanged). -/
theorem claim_C10 : ∀ (P : FileIdPolicy) (pairs : List (String × List Nat)),
    (pairs.map Prod.fst).Nodup → pairs.length ≤ P.MAX_FILES → P.MAX_FILES < 2 ^ 64 →
    ∃ m', (addAll P pairs SourceFilesMap.new).finalize P = Except.ok m' ∧
      ∀ pc ∈ pairs, ∃ id, m'.get_id pc.1 = some id ∧ m'.get_path id = some pc.1 ∧
        m'.get_content id = some pc.2 := by
  intro P pairs hnd hcap hmax
  obtain ⟨m', hfin, hperm, hsorted, hnodup, hp2i, hlo, havg, hexp, hlen⟩ :=
    finalize_addAll_nodup P pairs hnd hcap
  refine ⟨m', hfin, ?_⟩
  intro pc hpc
  have hE : ({ path := pc.1, content := pc.2 } : FileEntry) ∈ entriesOf pairs :=
    List.mem_map_of_mem _ hpc
  have hS : ({ path := pc.1, content := pc.2 } : FileEntry) ∈ m'.files := hperm.mem_iff.mpr hE
  rcases List.mem_iff_get.mp hS with ⟨⟨i, hi⟩, hget⟩
  have hilt : i < 2 ^ 64 := by
    have h1 : i < m'.files.length := hi
    have h2 := hlen
    omega
  obtain ⟨hgid, hgp, hgc⟩ := finalized_get hp2i hnodup i hi hilt
  rw [hget] at hgid hgp hgc
  exact ⟨i + 1, hgid, hgp, hgc⟩

/-- Witness for C10: a two-file registry under the 8-bit policy. -/
theorem claim_C10_witness :
    ∃ m', (addAll u8Policy [("a.rs", [1, 2]), ("b.rs", [3])]
        SourceFilesMap.new).finalize u8Policy = Except.ok m' ∧
      ∀ pc ∈ [("a.rs", [1, 2]), ("b.rs", [3])], ∃ id, m'.get_id pc.1 = some id ∧
        m'.get_path id = some pc.1 ∧ m'.get_content id = some pc.2 :=
  claim_C10 u8Policy [("a.rs", [1, 2]), ("b.rs", [3])] (by decide) (by decide) (by decide)


/-- C3: the span resolver.  `view` returns `some` slice exactly when the file
content and its line index are found, `start_line` and `end_line` are nonzero
and ordered, both line lookups succeed, and the byte range
`start_range.start + (start_col - 1) .. end_range.start + end_col` lies within
the content and is not inverted; the returned slice is exactly that byte range
and no partial result exists.  Concretely, on `b"First\nSecond\nThird"` the
relative position `(1, 1, 3, 5)` resolves to the whole content and
`start_line = 0` resolves to nothing. -/
theorem claim_C3 :
    (∀ (m : SourceFilesMap) (id sl sc el ec : Nat) (bytes : List Nat),
      m.view id sl sc el ec = some bytes ↔
      ∃ content clo sr er,
        m.get_content id = some content ∧
        m.line_offsets.lookup id = some clo ∧
        sl ≠ 0 ∧ el ≠ 0 ∧ sl ≤ el ∧
        clo.get_line_range sl = some sr ∧ clo.get_line_range el = some er ∧
        sr.1 + (sc - 1) < content.length ∧ er.1 + ec ≤ content.length ∧
        sr.1 + (sc - 1) ≤ er.1 + ec ∧
        bytes = (content.drop (sr.1 + (sc - 1))).take (er.1 + ec - (sr.1 + (sc - 1)))) ∧
    exceptOk ((addAll u8Policy [("multiline.txt", exContent)]
      SourceFilesMap.new).finalize u8Policy) = true ∧
    exRegistry.view 1 (RelativePosition.start_line relEx) (RelativePosition.start_column relEx)
      (RelativePosition.end_line relEx) (RelativePosition.end_column relEx) = some exContent ∧
    exRegistry.view 1 0 1 3 5 = none := by
  refine ⟨?_, by decide, by decide, by decide⟩
  intro m id sl sc el ec bytes
  rcases hgc : m.get_content id with _ | content
  · simp [SourceFilesMap.view, hgc]
  · rcases hlo : m.line_offsets.lookup id with _ | clo
    · simp [SourceFilesMap.view, hgc, hlo]
    · by_cases h0 : sl = 0 ∨ el = 0 ∨ sl > el
      · simp only [SourceFilesMap.view, hgc, hlo, if_pos h0]
        constructor
        · intro h
          exact absurd h (by simp)
        · rintro ⟨c', co', sr', er', hc', hco', hsl0, hel0, hsle, _⟩
          rcases h0 with h0 | h0 | h0
          · exact absurd h0 hsl0
          · exact absurd h0 hel0
          · omega
      · rcases hsr : clo.get_line_range sl with _ | sr
        · simp only [SourceFilesMap.view, hgc, hlo, if_neg h0, hsr]
          constructor
          · intro h
            exact absurd h (by simp)
          · rintro ⟨c', co', sr', er', hc', hco', _, _, _, hsr', _⟩
            obtain rfl : co' = clo := (Option.some.inj hco').symm
            rw [hsr] at hsr'
            exact absurd hsr' (by simp)
        · rcases her : clo.get_line_range el with _ | er
          · simp only [SourceFilesMap.view, hgc, hlo, if_neg h0, hsr, her]
            constructor
            · intro h
              exact absurd h (by simp)
            · rintro ⟨c', co', sr', er', hc', hco', _, _, _, hsr', her', _⟩
              obtain rfl : co' = clo := (Option.some.inj hco').symm
              rw [her] at her'
              exact absurd her' (by simp)
          · by_cases hb : sr.1 + (sc - 1) ≥ content.length ∨ er.1 + ec > content.length ∨
                sr.1 + (sc - 1) > er.1 + ec
            · simp only [SourceFilesMap.view, hgc, hlo, if_neg h0, hsr, her, if_pos hb]
              constructor
              · intro h
                exact absurd h (by simp)
              · rintro ⟨c', co', sr', er', hc', hco', _, _, _, hsr', her', hb1, hb2, hb3, _⟩
                obtain rfl : c' = content := (Option.some.inj hc').symm
                obtain rfl : co' = clo := (Option.some.inj hco').symm
                rw [hsr] at hsr'
                obtain rfl : sr' = sr := (Option.some.inj hsr').symm
                rw [her] at her'
                obtain rfl : er' = er := (Option.some.inj her').symm
                omega
            · simp only [SourceFilesMap.view, hgc, hlo, if_neg h0, hsr, her, if_neg hb]
              push_neg at h0 hb
              constructor
              · intro h
                refine ⟨content, clo, sr, er, rfl, rfl, h0.1, h0.2.1, by omega, hsr, her,
                  by omega, by omega, by omega, ?_⟩
                exact (Option.some.inj h).symm
              · rintro ⟨c', co', sr', er', hc', hco', _, _, _, hsr', her', _, _, _, hbytes⟩
                obtain rfl : c' = content := (Option.some.inj hc').symm
                obtain rfl : co' = clo := (Option.some.inj hco').symm
                rw [hsr] at hsr'
                obtain rfl : sr' = sr := (Option.some.inj hsr').symm
                rw [her] at her'
                obtain rfl : er' = er := (Option.some.inj her').symm
                rw [hbytes]

/-- Witness for C3: the characterization instantiated on the view example. -/
theorem claim_C3_witness :
    ∃ content clo sr er,
      exRegistry.get_content 1 = some content ∧
      exRegistry.line_offsets.lookup 1 = some clo ∧
      (1 : Nat) ≠ 0 ∧ (3 : Nat) ≠ 0 ∧ (1 : Nat) ≤ 3 ∧
      clo.get_line_range 1 = some sr ∧ clo.get_line_range 3 = some er ∧
      sr.1 + (1 - 1) < content.length ∧ er.1 + 5 ≤ content.length ∧
      sr.1 + (1 - 1) ≤ er.1 + 5 ∧
      exContent = (content.drop (sr.1 + (1 - 1))).take (er.1 + 5 - (sr.1 + (1 - 1))) :=
  (claim_C3.1 exRegistry 1 1 1 3 5 exContent).mp (by decide)
